import Mathlib

/-!
# Verification of the Veax concentrated-liquidity DEX core

Shallow embedding, in Lean 4, of the parts of the Veax DEX engine
(`src/veax/dex`) that the specification's claims are about:

* the tick model (`dex/tick.rs`): tick validation and the bit-product
  computation of spot square-root prices;
* the `U128X128` fixed-point type (`fp/u128x128.rs`): exact add/sub;
* the pool state machine (`dex/v0/pool_state_ex.rs`): the discrete
  (tick-map / position-map / reference-counter) bookkeeping of
  `open_position` and `withdraw_fee_and_close_position`, the deposit
  charging fragment of `open_position`, and the step-limit
  classification fragment of `try_step_to_price`;
* the orchestration layer (`dex/dex_impl/mod.rs`): multi-hop
  `swap_exact_in` and `withdraw_impl`;
* the account state (`dex/v0/account_state_ex.rs`): balances,
  withdrawal, token unregistration.

Machine integers are embedded as `Nat`/`Int` with explicit bounds where
overflow matters.  f64 (`Float` in the source) enters the pool engine
only through quantities whose *values* are irrelevant to the discrete
bookkeeping claims; where a float-valued computation decides a branch or
can fail, the outcome is threaded as an explicit oracle parameter, so
every behaviour of the source is a behaviour of the model.  Rust
arithmetic panics (overflow-checked builds) abort the transaction just
like returned errors do — both are modelled in the `Except` monad, with
the distinguished `ErrorKind.Panic` marking a modelled panic.
-/

namespace Veax

/-- Error kinds from `dex/errors.rs` that the embedded code can produce
(plus `Panic`, which models a Rust arithmetic panic: in the source a
panic aborts the transaction exactly like a returned error, since the
orchestration layer commits state only on success). -/
inductive ErrorKind where
  | PriceTickOutOfBounds
  | InvalidParams
  | WrongRatio
  | LiquidityTooSmall
  | LiquidityTooBig
  | PositionAlreadyExists
  | PositionDoesNotExist
  | InternalLogicError
  | InternalTickNotFound
  | InternalTickNotDeleted
  | InternalDepositMoreThanMax
  | DepositWouldOverflow
  | ConvOverflow
  | Slippage
  | AtLeastOneSwap
  | InsufficientLiquidity
  | WithdrawInProgress
  | NonZeroTokenBalance
  | TokenNotRegistered
  | NotEnoughTokens
  | Panic
  deriving DecidableEq, Repr

/-! ## Tick bounds (`chain/mod.rs`, `dex/tick.rs`) -/

/-- `chain/mod.rs`: `pub const MAX_TICK: i32 = 887_273;` -/
def MAX_TICK : Int := 887273

/-- `chain/mod.rs`: `pub const MIN_TICK: i32 = -887_273;` -/
def MIN_TICK : Int := -887273

namespace Tick

/-- `Tick::is_valid`: `MIN_TICK <= value && value <= MAX_TICK`. -/
def is_valid (value : Int) : Bool :=
  MIN_TICK ≤ value && value ≤ MAX_TICK

/-- `Tick::new`: `Ok(Self(value))` when valid, otherwise
`Err(ErrorKind::PriceTickOutOfBounds)`.  The tick itself is represented
by its (validated) index. -/
def new (value : Int) : Except ErrorKind Int :=
  if is_valid value then .ok value else .error .PriceTickOutOfBounds

end Tick

/-! ## Spot sqrt-price lookup table (`dex/tick.rs`)

`PRECALCULATED_TICKS` holds the IEEE-754 bit patterns (as `u64`) of the
per-bit factors `base^(2^i)`.  All 21 entries are positive normal
doubles.  `Tick::spot_sqrtprice` multiplies together the factors at the
bit positions set in `|tick|` and takes the reciprocal for negative
ticks.  The multiplicative structure of the computation — which factors
enter the product, and the sign of the exponent — is what claim C5 is
about; we embed the doubles by their exact rational values, obtained by
decoding the bit patterns. -/

/-- `dex/tick.rs`: `pub const PRECALCULATED_TICKS: [u64; 21]`. -/
def PRECALCULATED_TICKS : List Nat :=
  [4607182643974369558, 4607182869159980145, 4607183319564978878,
   4607184220510102349, 4607186022940979433, 4607189629966263589,
   4607196852679033204, 4607211332818125533, 4607240432470062669,
   4607299193450302128, 4607418995971640537, 4607668000704051496,
   4608205938457857923, 4609462070376259803, 4612290832146940624,
   4617480469329378893, 4628148512120721768, 4649381992504848318,
   4692198734602598674, 4777248888797670312, 4947442543280771895]

/-- Exact rational value of a positive normal IEEE-754 double given its
bit pattern (`Float::from_bits`): mantissa `2^52 + (bits mod 2^52)`
scaled by `2^(e - 1075)` where `e` is the 11-bit biased exponent.  Every
entry of `PRECALCULATED_TICKS` is a positive normal double, so this
decoding is exact for all factors used by `spot_sqrtprice`. -/
def floatRatFromBits (bits : Nat) : ℚ :=
  (2 ^ 52 + (bits % 2 ^ 52) : ℚ) * (2 : ℚ) ^ ((bits / 2 ^ 52 % 2 ^ 11 : ℕ) - 1075 : ℤ)

/-- The rational value of `PRECALCULATED_TICKS[i]` (out-of-range indices
never arise for valid ticks, whose absolute value is below `2^20`). -/
def precalc_factor (i : Nat) : ℚ :=
  floatRatFromBits (PRECALCULATED_TICKS.getD i 0)

/-- Positions of the set bits of `n`, in ascending order: the embedding
of `view_bits::<Lsb0>().iter_ones()` from `Tick::spot_sqrtprice`. -/
def iter_ones (n : Nat) : List Nat :=
  if n = 0 then []
  else (if n % 2 = 1 then [0] else []) ++ (iter_ones (n / 2)).map (· + 1)
  decreasing_by exact Nat.div_lt_self (Nat.pos_of_ne_zero (by assumption)) one_lt_two

namespace Tick

/-- `Tick::spot_sqrtprice`: the product of the table factors selected by
the set bits of `|index|` (`product1` returns `None` on the empty
iterator, mapped to one), reciprocated when the index is not positive
(`is_positive()` is `> 0`; for a nonempty bit list the index is nonzero,
so this means negative). -/
def spot_sqrtprice (t : Int) : ℚ :=
  match (iter_ones t.natAbs).map precalc_factor with
  | [] => 1
  | l => if 0 < t then l.prod else l.prod⁻¹

end Tick

/-- The product of the per-bit factors over exactly the bit positions
set in the binary representation of `|t|` — the characterization of
`spot_sqrtprice` stated by the specification. -/
def tick_bit_product (t : Int) : ℚ :=
  (((List.range 21).filter (fun i => t.natAbs.testBit i)).map precalc_factor).prod

/-! ## `U128X128` (`fp/u128x128.rs`)

`U128X128` wraps a `U256` (the `uint` crate), interpreted with 128
fractional bits.  `Add`/`Sub` delegate to `U256` addition/subtraction,
which panic on overflow/underflow.  We represent the wrapper by its raw
256-bit value and model the panicking operators as partial operations. -/

def U256_SIZE : Nat := 2 ^ 256

structure U128X128 where
  raw : Nat
  isLt : raw < U256_SIZE
  deriving DecidableEq

namespace U128X128

theorem ext {a b : U128X128} (h : a.raw = b.raw) : a = b := by
  cases a; cases b; simp_all

/-- `impl ops::Add for U128X128`: `U128X128(self.0 + rhs.0)`; the
underlying `U256` addition panics on overflow, so the sum is defined
exactly when it fits in 256 bits. -/
def add (a b : U128X128) : Option U128X128 :=
  if h : a.raw + b.raw < U256_SIZE then some ⟨a.raw + b.raw, h⟩ else none

/-- `impl ops::Sub for U128X128`: `U128X128(self.0 - rhs.0)`; the
underlying `U256` subtraction panics on underflow, so the difference is
defined exactly when the subtrahend does not exceed the minuend. -/
def sub (a b : U128X128) : Option U128X128 :=
  if h : b.raw ≤ a.raw then
    some ⟨a.raw - b.raw, lt_of_le_of_lt (Nat.sub_le _ _) a.isLt⟩
  else none

end U128X128

/-! ## Amounts and `U256X256` (`AmountUFP`) helpers

`Amount` is `u128`.  `AmountUFP` is `U256X256`: a 512-bit raw value with
256 fractional bits; we represent it by its raw numerator (value =
`raw / 2^256`). -/

def U128_SIZE : Nat := 2 ^ 128

/-- Scale factor of `U256X256`: `2^256` fractional resolution. -/
def UFP_SCALE : Nat := 2 ^ 256

/-- Integer value of `U256X256::ceil` applied to a raw value:
`floor` plus one when any fractional word is nonzero. -/
def ufp_ceil_int (raw : Nat) : Nat :=
  raw / UFP_SCALE + (if raw % UFP_SCALE = 0 then 0 else 1)

/-- `Amount::try_from(x.ceil())` for `x : U256X256`: `ceil` panics if the
integer part overflows 256 bits (the `U512` add in `ceil` overflows),
and the `u128` conversion returns `Overflow` (surfacing as
`ErrorKind::ConvOverflow`) if the integer part exceeds `u128::MAX`. -/
def ufp_ceil_to_amount (raw : Nat) : Except ErrorKind Nat :=
  if U256_SIZE ≤ ufp_ceil_int raw then .error .Panic
  else if U128_SIZE ≤ ufp_ceil_int raw then .error .ConvOverflow
  else .ok (ufp_ceil_int raw)

/-! ## Deposit-charging fragment of `PoolV0::open_position`
(`dex/v0/pool_state_ex.rs` lines 705-746)

The accounted deposit `accounted_deposit_ufp` is computed upstream by
`eval_position_balance_ufp` from f64 effective prices; it enters this
fragment as the `accounted` parameter (a pair of raw `U256X256`
values).  Everything below that point is exact integer arithmetic and
is embedded directly: rounding the charge up per token, the max/min
checks in source order, the `accounted ≤ actual` cross-checks, and the
checked addition into `total_reserves`. -/

def open_position_charge (left_min left_max right_min right_max : Nat)
    (accounted : Nat × Nat) (total_reserves : Nat × Nat) :
    Except ErrorKind ((Nat × Nat) × (Nat × Nat)) :=
  match ufp_ceil_to_amount accounted.1 with
  | .error e => .error e
  | .ok a0 =>
    match ufp_ceil_to_amount accounted.2 with
    | .error e => .error e
    | .ok a1 =>
      if a0 ≤ left_max then
        if a1 ≤ right_max then
          if left_min ≤ a0 then
            if right_min ≤ a1 then
              if 0 ≤ a0 ∨ 0 ≤ a1 then
                if accounted.1 ≤ a0 * UFP_SCALE then
                  if accounted.2 ≤ a1 * UFP_SCALE then
                    if total_reserves.1 + a0 < U128_SIZE then
                      if total_reserves.2 + a1 < U128_SIZE then
                        .ok ((a0, a1), (total_reserves.1 + a0, total_reserves.2 + a1))
                      else .error .DepositWouldOverflow
                    else .error .DepositWouldOverflow
                  else .error .InternalDepositMoreThanMax
                else .error .InternalDepositMoreThanMax
              else .error .InternalLogicError
            else .error .WrongRatio
          else .error .WrongRatio
        else .error .InternalLogicError
      else .error .InternalLogicError

/-! ## Step-limit classification of `PoolV0::try_step_to_price`
(`dex/v0/pool_state_ex.rs` lines 1113-1152)

The function receives the candidate `new_eff_sqrtprice`, checks level
activation first (when `top_active_level < NUM_FEE_LEVELS - 1`), the
`InsufficientLiquidity` guard, then tick crossing; both comparisons are
non-strict, so the later tick-crossing check overwrites the limit kind
on a tie.  Prices are embedded as exact rationals: only their ordering
matters to the classification. -/

inductive StepLimit where
  | StepComplete
  | LevelActivation
  | TickCrossing
  deriving DecidableEq, Repr

def try_step_to_price_classify
    (eff_sqrtprice : ℚ) (top_level_below_max : Bool)
    (next_level_eff_sqrtprice : ℚ) (tick_eff_sqrtprice : Option ℚ)
    (new_eff_sqrtprice : ℚ) : Except ErrorKind (ℚ × StepLimit) :=
  if ¬ eff_sqrtprice ≤ new_eff_sqrtprice then .error .InternalLogicError
  else
    let pk :=
      if top_level_below_max ∧ next_level_eff_sqrtprice ≤ new_eff_sqrtprice then
        (next_level_eff_sqrtprice, StepLimit.LevelActivation)
      else (new_eff_sqrtprice, StepLimit.StepComplete)
    if ¬ (tick_eff_sqrtprice.isSome ∨ top_level_below_max) then
      .error .InsufficientLiquidity
    else
      match tick_eff_sqrtprice with
      | some tp => if tp ≤ pk.1 then .ok (tp, .TickCrossing) else .ok pk
      | none => .ok pk

/-! ## Association lists

The persistent `Map` collaborators are embedded as association lists
(no duplicate keys; the operations below preserve that). -/

def alLookup {K V : Type} [DecidableEq K] (m : List (K × V)) (k : K) : Option V :=
  (m.find? (fun p => decide (p.1 = k))).map (·.2)

def alSet {K V : Type} [DecidableEq K] (m : List (K × V)) (k : K) (v : V) :
    List (K × V) :=
  m.map (fun p => if p.1 = k then (k, v) else p)

def alErase {K V : Type} [DecidableEq K] (m : List (K × V)) (k : K) : List (K × V) :=
  m.filter (fun p => decide (p.1 ≠ k))

def alContains {K V : Type} [DecidableEq K] (m : List (K × V)) (k : K) : Bool :=
  (alLookup m k).isSome

/-! ## Account state (`dex/v0/account_state_ex.rs`) and
`Dex::withdraw_impl` (`dex/dex_impl/mod.rs` lines 720-769) -/

abbrev TokenId := Nat
abbrev Amount := Nat

structure AccountModel where
  token_balances : List (TokenId × Amount)
  /-- Tokens whose withdrawal is in flight
  (`withdraw_tracker.is_token_withdraw_in_progress`). -/
  pending_tokens : List TokenId
  deriving DecidableEq, Repr

/-- `AccountV0::withdraw`: `try_update` with `checked_sub`.  A missing
key yields the `AccountTokenBalancesMap` context error
`TokenNotRegistered`; insufficient balance yields `NotEnoughTokens`.
Returns the updated account and the new balance. -/
def account_withdraw (acc : AccountModel) (token : TokenId) (amount : Amount) :
    Except ErrorKind (AccountModel × Amount) :=
  match alLookup acc.token_balances token with
  | none => .error .TokenNotRegistered
  | some balance =>
    if amount ≤ balance then
      .ok ({ acc with token_balances := alSet acc.token_balances token (balance - amount) },
        balance - amount)
    else .error .NotEnoughTokens

/-- `AccountV0::unregister_token`: entries may only be dropped at zero
balance. -/
def unregister_token (acc : AccountModel) (token : TokenId) :
    Except ErrorKind AccountModel :=
  match alLookup acc.token_balances token with
  | some balance =>
    if balance = 0 then
      .ok { acc with token_balances := alErase acc.token_balances token }
    else .error .NonZeroTokenBalance
  | none => .ok acc

/-- `AccountV0::unregister_tokens` applied to the singleton iterator
that `withdraw_impl` passes: the pending-withdrawal guard, then
`unregister_token`. -/
def unregister_tokens (acc : AccountModel) (token : TokenId) :
    Except ErrorKind AccountModel :=
  if token ∈ acc.pending_tokens then .error .WithdrawInProgress
  else unregister_token acc token

/-- `Dex::withdraw_impl`: amount `0` means "withdraw the whole
balance"; the returned `Option Amount` is `some sent` when a token send
closure is produced (`Ok(Some(closure))` in the source, sending exactly
`sent` tokens) and `none` when no send is initiated (`Ok(None)`). -/
def withdraw_impl (acc : AccountModel) (token : TokenId) (amount : Amount)
    (unregister : Bool) : Except ErrorKind (AccountModel × Option Amount) :=
  if amount = 0 then
    match alLookup acc.token_balances token with
    | none => .ok (acc, none)
    | some balance =>
      if balance = 0 then
        if unregister then
          match unregister_tokens acc token with
          | .error e => .error e
          | .ok acc2 => .ok (acc2, none)
        else .ok (acc, none)
      else
        match account_withdraw acc token balance with
        | .error e => .error e
        | .ok acc2 => .ok (acc2.1, some balance)
  else
    match account_withdraw acc token amount with
    | .error e => .error e
    | .ok acc2 => .ok (acc2.1, some amount)

/-! ## Multi-hop `Dex::swap_exact_in` (`dex/dex_impl/mod.rs` lines
1323-1364)

The single-hop pool swap (`Dex::swap`, whose numeric core is the
f64-based `PoolV0::swap_exact_in`) and the caller-account balance
update are abstracted as the parameters `swapHop` and `accountUpdate`;
the claim is about how the orchestration layer chains them. -/

/-- `Itertools::tuple_windows` for pairs: consecutive pairs of a list. -/
def tuple_windows : List TokenId → List (TokenId × TokenId)
  | a :: b :: rest => (a, b) :: tuple_windows (b :: rest)
  | _ => []

/-- The hop loop of `Dex::swap_exact_in`: each window's output becomes
the next window's input. -/
def run_hops {σ : Type}
    (swapHop : σ → TokenId → TokenId → Amount → Except ErrorKind (σ × Amount)) :
    σ → List (TokenId × TokenId) → Amount → Except ErrorKind (σ × Amount)
  | s, [], a => .ok (s, a)
  | s, (tin, tout) :: rest, a =>
    match swapHop s tin tout a with
    | .error e => .error e
    | .ok sa => run_hops swapHop sa.1 rest sa.2

/-- The chained application of the single-hop swap along a token path,
in path order — the specification-side characterization that C6 compares
the implementation against. -/
def chained_swap {σ : Type}
    (swapHop : σ → TokenId → TokenId → Amount → Except ErrorKind (σ × Amount)) :
    σ → List TokenId → Amount → Except ErrorKind (σ × Amount)
  | s, t1 :: t2 :: rest, a =>
    match swapHop s t1 t2 a with
    | .error e => .error e
    | .ok sa => chained_swap swapHop sa.1 (t2 :: rest) sa.2
  | s, _, a => .ok (s, a)

/-- `Dex::swap_exact_in`: path-length guard, the hop loop, the slippage
guard, then the caller-account update (withdraw the first token's
`amount_in`, deposit the last token's `amount_out`). -/
def swap_exact_in {σ : Type}
    (swapHop : σ → TokenId → TokenId → Amount → Except ErrorKind (σ × Amount))
    (accountUpdate : σ → TokenId → Amount → TokenId → Amount → Except ErrorKind σ)
    (s : σ) (tokens : List TokenId) (amount_in min_amount_out : Amount) :
    Except ErrorKind (σ × Amount × Amount) :=
  if 2 ≤ tokens.length then
    match run_hops swapHop s (tuple_windows tokens) amount_in with
    | .error e => .error e
    | .ok sa =>
      if min_amount_out ≤ sa.2 then
        match accountUpdate sa.1 (tokens.head?.getD 0) amount_in
            (tokens.getLast?.getD 0) sa.2 with
        | .error e => .error e
        | .ok s2 => .ok (s2, amount_in, sa.2)
      else .error .Slippage
  else .error .AtLeastOneSwap

/-! ## Pool state machine (`dex/v0/pool_state_ex.rs`)

The discrete bookkeeping of `PoolV0`: the per-level tick-state maps
with reference counters, the position map, the next-active-tick caches,
and the reset-to-uninitialized logic.  All eight fee levels
(`NUM_FEE_LEVELS = 8`) are present.  All f64-valued quantities
(effective sqrt-prices, the accounted liquidity and deposit, fee
rewards and balances) influence only *which* branch is taken at a few
comparison points or whether a conversion fails; those outcomes enter
each operation as an explicit oracle record, so every run of the
source is a run of the model for some oracle.  Failures abort the whole
operation with no committed state change (the orchestration layer
persists records only when the operation succeeds), which
`open_commit`/`close_commit` reflect. -/

abbrev FeeLevel := Fin 8

inductive Side where
  | Left
  | Right
  deriving DecidableEq, Repr

/-- `TickStateV0` (`dex/state_types.rs`): `net_liquidity_change` is a
sign-magnitude `I192X64`, embedded value-exactly as `Int` (in raw
`2^-64` units); `reference_counter` is a `u32` with checked arithmetic;
the outside fee accumulators are sign-magnitude `I128X128`, embedded
value-exactly as rationals. -/
structure TickStateM where
  net_liquidity_change : Int
  reference_counter : Nat
  acc_lp_fees_per_fee_liquidity_outside : ℚ × ℚ
  deriving DecidableEq, Repr

/-- `TickStateV0::default()`: all zeros. -/
def default_tick : TickStateM :=
  { net_liquidity_change := 0, reference_counter := 0,
    acc_lp_fees_per_fee_liquidity_outside := (0, 0) }

/-- `PositionV0` (`dex/state_types.rs`); `net_liquidity` is the raw
`U192X64` value. -/
structure PositionM where
  fee_level : FeeLevel
  net_liquidity : Nat
  init_acc_lp_fees_per_fee_liquidity : ℚ × ℚ
  unwithdrawn_acc_lp_fees_per_fee_liquidity : ℚ × ℚ
  init_sqrtprice : ℚ
  tick_bounds : Int × Int
  deriving DecidableEq, Repr

/-- `PoolV0` (`dex/state_types.rs`).  `total_reserves` are `u128`
amounts, `position_reserves` and `acc_lp_fee` raw `U256X256` values,
effective sqrt-prices rational placeholders for the f64 values (only
zero/nonzero and equality matter to the embedded claims). -/
structure PoolM where
  positions : List (Nat × PositionM)
  tick_states : FeeLevel → List (Int × TickStateM)
  total_reserves : Nat × Nat
  position_reserves : FeeLevel → Nat × Nat
  acc_lp_fee : Nat × Nat
  acc_lp_fees_per_fee_liquidity : FeeLevel → ℚ × ℚ
  eff_sqrtprices : FeeLevel → ℚ × ℚ
  next_active_ticks_left : FeeLevel → Option Int
  next_active_ticks_right : FeeLevel → Option Int
  net_liquidities : FeeLevel → Nat
  top_active_level : FeeLevel
  active_side : Side
  pivot : Int

/-- A freshly created pool: empty maps, all prices zero. -/
def pool_init : PoolM :=
  { positions := [], tick_states := fun _ => [], total_reserves := (0, 0),
    position_reserves := fun _ => (0, 0), acc_lp_fee := (0, 0),
    acc_lp_fees_per_fee_liquidity := fun _ => (0, 0),
    eff_sqrtprices := fun _ => (0, 0), next_active_ticks_left := fun _ => none,
    next_active_ticks_right := fun _ => none, net_liquidities := fun _ => 0,
    top_active_level := 0, active_side := .Left, pivot := 0 }

/-- `PoolV0::is_spot_price_set`: the left effective sqrt-price on level
0 is nonzero. -/
def is_spot_price_set (s : PoolM) : Bool :=
  decide ((s.eff_sqrtprices 0).1 ≠ 0)

/-- `PoolV0::contains_any_positions` restricted to a map family: some
level's tick map is nonempty (`inspect_min(..).is_some()`). -/
def any_tick_states (ts : FeeLevel → List (Int × TickStateM)) : Bool :=
  (List.finRange 8).any (fun l => !(ts l).isEmpty)

def contains_any_positions (s : PoolM) : Bool :=
  any_tick_states s.tick_states

/-- `Option<Tick>` with the Rust `Ord` (`None < Some _`):
`Some(t) > a`. -/
def optGtSome (a : Option Int) (t : Int) : Bool :=
  match a with
  | none => true
  | some x => decide (x < t)

/-- `MinSome` (`dex/utils.rs`): minimum ignoring `None`. -/
def min_some (a b : Option Int) : Option Int :=
  match a, b with
  | _, none => a
  | none, _ => b
  | some x, some y => some (min x y)

/-- `Option::max` with the Rust `Ord` (`None < Some _`). -/
def opt_max (a b : Option Int) : Option Int :=
  match a, b with
  | none, _ => b
  | _, none => a
  | some x, some y => some (max x y)

/-- `Tick::unwrap_range`: `None` bounds become `MIN_TICK`/`MAX_TICK`,
explicit bounds are validated (low first). -/
def unwrap_range (r : Option Int × Option Int) : Except ErrorKind (Int × Int) :=
  match r.1, r.2 with
  | some lo, some hi =>
    (match Tick.new lo, Tick.new hi with
     | .error e, _ => .error e
     | .ok a, .error e => .error e
     | .ok a, .ok b => .ok (a, b))
  | some lo, none => (Tick.new lo).map (fun a => (a, MAX_TICK))
  | none, some hi => (Tick.new hi).map (fun b => (MIN_TICK, b))
  | none, none => .ok (MIN_TICK, MAX_TICK)

/-- `PoolV0::cmp_spot_price_to_position_range`: position of the spot
price relative to a tick range, decided from the next-active-tick
caches (purely discrete). -/
def cmp_spot_price_to_position_range (s : PoolM) (l : FeeLevel)
    (low high : Int) : Except ErrorKind Ordering :=
  match s.next_active_ticks_left l, s.next_active_ticks_right l with
  | some naL, some naR =>
    if low ≤ naR ∧ naL ≤ high then .ok .eq
    else if high ≤ naR then .ok .gt
    else if naL ≤ low then .ok .lt
    else .error .InternalLogicError
  | some naL, none => if naL ≤ low then .ok .lt else .error .InternalTickNotFound
  | none, some naR => if high ≤ naR then .ok .gt else .error .InternalTickNotFound
  | none, none => .error .InternalTickNotFound

/-- Branch oracle for one `update_next_active_ticks` call: `lt` is the
f64 comparison `eff_sqrtprice_left < new_tick.eff_sqrtprice_left`,
`ens` the outcome of the branch's f64 `ensure`, `eq` the f64 equality
check in the `next_active_ticks_left == new_tick` sub-branch. -/
structure UNATOracle where
  lt : Bool
  ens : Bool
  eq : Bool
  deriving DecidableEq, Repr

/-- `PoolV0::update_next_active_ticks`: cache maintenance for a newly
activated tick; the f64 price comparisons are oracle bits, the cache
manipulation is exact. -/
def update_next_active_ticks (o : UNATOracle) (s : PoolM) (new_tick : Int)
    (l : FeeLevel) : Except ErrorKind PoolM :=
  if o.lt then
    if o.ens then
      if optGtSome (s.next_active_ticks_right l) new_tick then
        .ok { s with next_active_ticks_left :=
          (Function.update s.next_active_ticks_left l
            (min_some (s.next_active_ticks_left l) (some new_tick))) }
      else .error .InternalLogicError
    else .error .InternalLogicError
  else
    if o.ens then
      if s.next_active_ticks_left l = some new_tick then
        if o.eq then .ok s else .error .InternalLogicError
      else
        .ok { s with next_active_ticks_right :=
          (Function.update s.next_active_ticks_right l
            (opt_max (s.next_active_ticks_right l) (some new_tick))) }
    else .error .InternalLogicError

/-- `PoolV0::acc_lp_fee_per_fee_liquidity` (both sides): sum of the
per-level accumulators over levels `l..8`. -/
def acc_lp_fee_per_fee_liquidity (s : PoolM) (l : FeeLevel) : ℚ × ℚ :=
  (((List.finRange 8).filter (fun k => decide (l ≤ k))).map
      s.acc_lp_fees_per_fee_liquidity).foldl
    (fun a b => (a.1 + b.1, a.2 + b.2)) (0, 0)

/-- `PoolV0::acc_range_lp_fees_per_fee_liquidity`: the outside-snapshot
reflection with the three-way price-to-range comparison; missing ticks
default to zero snapshots. -/
def acc_range_lp_fees (s : PoolM) (l : FeeLevel) (low high : Int) :
    Except ErrorKind (ℚ × ℚ) :=
  match cmp_spot_price_to_position_range s l low high with
  | .error e => .error e
  | .ok ord =>
    (let lo := ((alLookup (s.tick_states l) low).map
        (·.acc_lp_fees_per_fee_liquidity_outside)).getD (0, 0)
     let hi := ((alLookup (s.tick_states l) high).map
        (·.acc_lp_fees_per_fee_liquidity_outside)).getD (0, 0)
     match ord with
     | .eq =>
       .ok ((acc_lp_fee_per_fee_liquidity s l).1 - lo.1 - hi.1,
            (acc_lp_fee_per_fee_liquidity s l).2 - lo.2 - hi.2)
     | .lt => .ok (lo.1 - hi.1, lo.2 - hi.2)
     | .gt => .ok (hi.1 - lo.1, hi.2 - lo.2))

/-- The tick-map half of `open_position`'s `update_or_insert` on one
boundary tick: create the entry (from `new_default_tick`) on first
touch, add the liquidity delta, increment the reference counter
(checked `u32` increment). -/
def tick_upsert (m : List (Int × TickStateM)) (t : Int) (delta : Int) :
    Except ErrorKind (List (Int × TickStateM)) :=
  match alLookup m t with
  | some ts =>
    if ts.reference_counter + 1 < 2 ^ 32 then
      .ok (alSet m t { ts with
        net_liquidity_change := ts.net_liquidity_change + delta,
        reference_counter := ts.reference_counter + 1 })
    else .error .Panic
  | none =>
    .ok ((t, { default_tick with
      net_liquidity_change := default_tick.net_liquidity_change + delta,
      reference_counter := default_tick.reference_counter + 1 }) :: m)

/-- The tick-map half of one iteration of the closing loop in
`withdraw_fee_and_close_position`: `try_update` (missing tick is the
`TickStatesMap` context error `InternalTickNotFound`), checked `u32`
decrement, removal exactly when the counter reaches zero, with the
`InternalTickNotDeleted` cross-check.  Returns the updated map and the
`tick_deactivated` flag. -/
def tick_close_update (m : List (Int × TickStateM)) (t : Int) (delta : Int) :
    Except ErrorKind (List (Int × TickStateM) × Bool) :=
  match alLookup m t with
  | none => .error .InternalTickNotFound
  | some ts =>
    if 1 ≤ ts.reference_counter then
      if ts.reference_counter - 1 = 0 then
        (if alContains (alErase m t) t then .error .InternalTickNotDeleted
         else .ok (alErase m t, true))
      else
        .ok (alSet m t { ts with
          net_liquidity_change := ts.net_liquidity_change + delta,
          reference_counter := ts.reference_counter - 1 }, false)
    else .error .Panic

/-- `PoolV0::find_next_active_tick_on_level`: ordered-map
`inspect_above`/`inspect_below` — nearest key strictly beyond
`begin_excluding`. -/
def find_next_active_tick_on_level (s : PoolM) (begin_excluding : Int)
    (l : FeeLevel) (side : Side) : Option Int :=
  match side with
  | .Left =>
    (((s.tick_states l).map Prod.fst).filter
      (fun t => decide (begin_excluding < t))).min?
  | .Right =>
    (((s.tick_states l).map Prod.fst).filter
      (fun t => decide (t < begin_excluding))).max?

/-- One iteration of the closing tick loop: map update, then the
next-active-tick cache repair when the tick was deactivated. -/
def close_tick_step (s : PoolM) (l : FeeLevel) (t : Int) (delta : Int) :
    Except ErrorKind PoolM :=
  match tick_close_update (s.tick_states l) t delta with
  | .error e => .error e
  | .ok md =>
    (let s2 : PoolM := { s with tick_states := Function.update s.tick_states l md.1 }
     if md.2 then
       (let s3 : PoolM :=
          if s2.next_active_ticks_left l = some t then
            { s2 with next_active_ticks_left :=
              (Function.update s2.next_active_ticks_left l
                (find_next_active_tick_on_level s2 t l .Left)) }
          else s2
        let s4 : PoolM :=
          if s3.next_active_ticks_right l = some t then
            { s3 with next_active_ticks_right :=
              (Function.update s3.next_active_ticks_right l
                (find_next_active_tick_on_level s3 t l .Right)) }
          else s3
        .ok s4)
     else .ok s2)

/-- Per-call oracle for the f64-dependent outcomes inside
`open_position`: the pool-initialization result, the two cache-update
branches, the accounted net liquidity (raw `U192X64`; `none` = the
f64 evaluation failed) and the accounted deposit (raw `U256X256` pair;
`none` = `eval_position_balance_ufp` failed). -/
structure OpenOracle where
  init_ok : Bool
  init_prices : FeeLevel → ℚ × ℚ
  init_side : Side
  init_pivot : Int
  init_sqrtprice : ℚ
  unat_low : UNATOracle
  unat_high : UNATOracle
  acc_net_liquidity : Option Nat
  accounted_deposit : Option (Nat × Nat)

/-- The caller-supplied `PositionInit`: amount ranges (`u128`) and the
optional tick range. -/
structure PositionInitM where
  left_min : Nat
  left_max : Nat
  right_min : Nat
  right_max : Nat
  ticks_range : Option Int × Option Int

/-- Tick-map half of `open_position`: the two boundary-tick
`update_or_insert` calls (lower tick adds the liquidity delta, upper
tick subtracts it; each increments the reference counter, creating the
entry on first touch). -/
def open_ticks_update (s3 : PoolM) (fee_level : FeeLevel) (tlh : Int × Int)
    (liq : Nat) : Except ErrorKind (List (Int × TickStateM)) :=
  match tick_upsert (s3.tick_states fee_level) tlh.1 (Int.ofNat liq) with
  | .error e => .error e
  | .ok m1 => tick_upsert m1 tlh.2 (-(Int.ofNat liq))

/-- Accounted-deposit bookkeeping of `open_position`: add the raw
`U256X256` deposit to the level's `position_reserves` (the `U512`
addition panics on overflow). -/
def open_reserves_update (s6 : PoolM) (fee_level : FeeLevel) (dep : Nat × Nat) :
    Except ErrorKind PoolM :=
  if (s6.position_reserves fee_level).1 + dep.1 < 2 ^ 512 ∧
     (s6.position_reserves fee_level).2 + dep.2 < 2 ^ 512 then
    .ok { s6 with position_reserves :=
      (Function.update s6.position_reserves fee_level
        ((s6.position_reserves fee_level).1 + dep.1,
         (s6.position_reserves fee_level).2 + dep.2)) }
  else .error .Panic

/-- Active-liquidity update of `open_position`: when the spot price is
within the position range, add the accounted net liquidity (checked
`U192X64` addition). -/
def open_net_liquidity (s7 : PoolM) (fee_level : FeeLevel) (tlh : Int × Int)
    (liq : Nat) : Except ErrorKind PoolM :=
  match cmp_spot_price_to_position_range s7 fee_level tlh.1 tlh.2 with
  | .error e => .error e
  | .ok ord =>
    if ord = .eq then
      if s7.net_liquidities fee_level + liq < 2 ^ 256 then
        .ok { s7 with net_liquidities :=
          (Function.update s7.net_liquidities fee_level
            (s7.net_liquidities fee_level + liq)) }
      else .error .Panic
    else .ok s7

/-- Final stage of `open_position`: the deposit charge
(`open_position_charge`) and the `total_reserves` update. -/
def open_charge_commit (s8 : PoolM) (pos : PositionInitM) (dep : Nat × Nat)
    (liq : Nat) : Except ErrorKind (PoolM × (Nat × Nat) × Nat) :=
  match open_position_charge pos.left_min pos.left_max pos.right_min
      pos.right_max dep s8.total_reserves with
  | .error e => .error e
  | .ok r => .ok ({ s8 with total_reserves := r.2 }, r.1, liq)

/-- Tail of `open_position` after validation, cache updates and the
fresh-id check: record insertion, tick updates, deposit bookkeeping and
the charge. -/
def open_position_rest (o : OpenOracle) (s3 : PoolM) (pos : PositionInitM)
    (fee_level : FeeLevel) (position_id : Nat) (tlh : Int × Int) (liq : Nat)
    (snap : ℚ × ℚ) : Except ErrorKind (PoolM × (Nat × Nat) × Nat) :=
  match open_ticks_update s3 fee_level tlh liq with
  | .error e => .error e
  | .ok m2 =>
    match o.accounted_deposit with
    | none => .error .InternalLogicError
    | some dep =>
      match open_reserves_update
          { s3 with
             positions := (position_id,
               { fee_level := fee_level, net_liquidity := liq,
                 init_acc_lp_fees_per_fee_liquidity := snap,
                 unwithdrawn_acc_lp_fees_per_fee_liquidity := snap,
                 init_sqrtprice := o.init_sqrtprice,
                 tick_bounds := tlh }) :: s3.positions,
             tick_states := Function.update s3.tick_states fee_level m2 }
          fee_level dep with
      | .error e => .error e
      | .ok s7 =>
        match open_net_liquidity s7 fee_level tlh liq with
        | .error e => .error e
        | .ok s8 => open_charge_commit s8 pos dep liq

/-- Validation head of `open_position`: `Tick::unwrap_range` and the
amount/tick-range parameter checks. -/
def open_validate (pos : PositionInitM) : Except ErrorKind (Int × Int) :=
  match unwrap_range pos.ticks_range with
  | .error e => .error e
  | .ok tlh =>
    if pos.left_min ≤ pos.left_max then
      if pos.right_min ≤ pos.right_max then
        if tlh.1 < tlh.2 then .ok tlh
        else .error .InvalidParams
      else .error .InvalidParams
    else .error .InvalidParams

/-- `init_pool_from_position` as called by `open_position`: when the
spot price is not yet set, install the f64-computed initial prices
(oracle) and reset the active level/side/pivot. -/
def open_init_pool (o : OpenOracle) (s : PoolM) : Except ErrorKind PoolM :=
  if is_spot_price_set s then .ok s
  else if o.init_ok then
    .ok { s with
           eff_sqrtprices := o.init_prices,
           top_active_level := 0,
           active_side := o.init_side,
           pivot := o.init_pivot }
  else .error .InternalLogicError

/-- `PoolV0::open_position`, with the f64-valued computations threaded
through the oracle: validation, pool initialization on first position,
next-active-tick cache updates, the spot-price-to-range comparison,
the position insert (duplicate id fails), the two boundary-tick
reference-count updates, the accounted-deposit bookkeeping, and the
deposit charge (`open_position_charge`). -/
def open_position (o : OpenOracle) (s : PoolM) (pos : PositionInitM)
    (fee_level : FeeLevel) (position_id : Nat) :
    Except ErrorKind (PoolM × (Nat × Nat) × Nat) :=
  match open_validate pos with
  | .error e => .error e
  | .ok tlh =>
    match open_init_pool o s with
    | .error e => .error e
    | .ok s1 =>
      match update_next_active_ticks o.unat_low s1 tlh.1 fee_level with
      | .error e => .error e
      | .ok s2 =>
        match update_next_active_ticks o.unat_high s2 tlh.2 fee_level with
        | .error e => .error e
        | .ok s3 =>
          match cmp_spot_price_to_position_range s3 fee_level tlh.1 tlh.2 with
          | .error e => .error e
          | .ok _ =>
            match o.acc_net_liquidity with
            | none => .error .LiquidityTooSmall
            | some liq =>
              match acc_range_lp_fees s3 fee_level tlh.1 tlh.2 with
              | .error e => .error e
              | .ok snap =>
                if alContains s3.positions position_id then
                  .error .PositionAlreadyExists
                else
                  open_position_rest o s3 pos fee_level position_id tlh liq snap

/-- Per-call oracle for the f64-dependent outcomes inside
`withdraw_fee` / `withdraw_fee_and_close_position`: success of the
reward computation, the reward amounts (integer and raw `U256X256`),
and the position balance (integer pair, `none` = conversion failure;
plus the raw `U256X256` pair). -/
structure CloseOracle where
  fee_ok : Bool
  reward : Nat × Nat
  reward_ufp : Nat × Nat
  balance : Option (Nat × Nat)
  balance_ufp : Nat × Nat

/-- `PoolV0::withdraw_fee`: position lookup, the range fee accumulator
(exact), the f64 reward evaluation (oracle), then payout bookkeeping
(checked subtraction) and the snapshot update on the position. -/
def withdraw_fee (o : CloseOracle) (s : PoolM) (pid : Nat) :
    Except ErrorKind PoolM :=
  match alLookup s.positions pid with
  | none => .error .PositionDoesNotExist
  | some pos =>
    match acc_range_lp_fees s pos.fee_level pos.tick_bounds.1 pos.tick_bounds.2 with
    | .error e => .error e
    | .ok snap =>
      if o.fee_ok then
        if o.reward.1 ≤ s.total_reserves.1 ∧ o.reward.2 ≤ s.total_reserves.2 ∧
           o.reward_ufp.1 ≤ s.acc_lp_fee.1 ∧ o.reward_ufp.2 ≤ s.acc_lp_fee.2 then
          .ok { s with
            total_reserves := (s.total_reserves.1 - o.reward.1,
              s.total_reserves.2 - o.reward.2),
            acc_lp_fee := (s.acc_lp_fee.1 - o.reward_ufp.1,
              s.acc_lp_fee.2 - o.reward_ufp.2),
            positions := alSet s.positions pid
              { pos with unwithdrawn_acc_lp_fees_per_fee_liquidity := snap } }
        else .error .Panic
      else .error .InternalLogicError

/-- Balance payout of `withdraw_fee_and_close_position`: checked
subtraction of the position balance from `total_reserves` (`u128`) and
of the raw balance from the level's `position_reserves` (`U256X256`). -/
def close_balance_update (s2 : PoolM) (l : FeeLevel) (bal balu : Nat × Nat) :
    Except ErrorKind PoolM :=
  if bal.1 ≤ s2.total_reserves.1 ∧ bal.2 ≤ s2.total_reserves.2 ∧
     balu.1 ≤ (s2.position_reserves l).1 ∧ balu.2 ≤ (s2.position_reserves l).2 then
    .ok { s2 with
           total_reserves := (s2.total_reserves.1 - bal.1, s2.total_reserves.2 - bal.2),
           position_reserves :=
             (Function.update s2.position_reserves l
               ((s2.position_reserves l).1 - balu.1,
                (s2.position_reserves l).2 - balu.2)) }
  else .error .Panic

/-- Active-liquidity update of `withdraw_fee_and_close_position`: when
the spot price is within the closed position's range, subtract its net
liquidity (checked `U192X64` subtraction). -/
def close_net_liquidity (s3 : PoolM) (l : FeeLevel) (low high : Int) (liq : Nat) :
    Except ErrorKind PoolM :=
  match cmp_spot_price_to_position_range s3 l low high with
  | .error e => .error e
  | .ok ord =>
    if ord = .eq then
      if liq ≤ s3.net_liquidities l then
        .ok { s3 with net_liquidities :=
          (Function.update s3.net_liquidities l (s3.net_liquidities l - liq)) }
      else .error .Panic
    else .ok s3

/-- Final stage of `withdraw_fee_and_close_position`: when no tick
reference remains on any level, reset all effective sqrt-prices to zero
and the top active level to 0, with the defensive checks that every
next-active-tick cache is cleared. -/
def close_reset_if_empty (s6 : PoolM) (fees bal : Nat × Nat) :
    Except ErrorKind (PoolM × (Nat × Nat) × (Nat × Nat)) :=
  if contains_any_positions s6 then .ok (s6, fees, bal)
  else
    (let s7 : PoolM := { s6 with
       eff_sqrtprices := fun _ => (0, 0), top_active_level := 0 }
     if (List.finRange 8).all (fun l => (s7.next_active_ticks_left l).isNone) then
       if (List.finRange 8).all (fun l => (s7.next_active_ticks_right l).isNone) then
         .ok (s7, fees, bal)
       else .error .InternalLogicError
     else .error .InternalLogicError)

/-- `PoolV0::withdraw_fee_and_close_position`: fee withdrawal, position
removal, balance payout, conditional active-liquidity update, the two
boundary-tick closing steps, and the reset to the uninitialized state
when no tick reference remains anywhere. -/
def withdraw_fee_and_close_position (o : CloseOracle) (s : PoolM) (pid : Nat) :
    Except ErrorKind (PoolM × (Nat × Nat) × (Nat × Nat)) :=
  match withdraw_fee o s pid with
  | .error e => .error e
  | .ok s1 =>
    match alLookup s1.positions pid with
    | none => .error .PositionDoesNotExist
    | some pos =>
      match o.balance with
      | none => .error .ConvOverflow
      | some bal =>
        match close_balance_update { s1 with positions := alErase s1.positions pid }
            pos.fee_level bal o.balance_ufp with
        | .error e => .error e
        | .ok s3 =>
          match close_net_liquidity s3 pos.fee_level pos.tick_bounds.1
              pos.tick_bounds.2 pos.net_liquidity with
          | .error e => .error e
          | .ok s4 =>
            match close_tick_step s4 pos.fee_level pos.tick_bounds.1
                (-(Int.ofNat pos.net_liquidity)) with
            | .error e => .error e
            | .ok s5 =>
              match close_tick_step s5 pos.fee_level pos.tick_bounds.2
                  (Int.ofNat pos.net_liquidity) with
              | .error e => .error e
              | .ok s6 => close_reset_if_empty s6 o.reward bal

/-- Committed effect of `open_position`: the orchestration layer
persists the mutated pool only on success. -/
def open_commit (o : OpenOracle) (s : PoolM) (pos : PositionInitM)
    (fee_level : FeeLevel) (position_id : Nat) : PoolM :=
  match open_position o s pos fee_level position_id with
  | .ok r => r.1
  | .error _ => s

/-- Committed effect of `withdraw_fee_and_close_position`. -/
def close_commit (o : CloseOracle) (s : PoolM) (pid : Nat) : PoolM :=
  match withdraw_fee_and_close_position o s pid with
  | .ok r => r.1
  | .error _ => s

/-- Pool states reachable from a fresh pool by any sequence of
`open_position` and `withdraw_fee_and_close_position` operations (with
arbitrary parameters and f64 oracles; failed operations commit
nothing). -/
inductive Reachable : PoolM → Prop where
  | init : Reachable pool_init
  | open_step : ∀ {s} (o : OpenOracle) (pos : PositionInitM) (fee_level : FeeLevel)
      (pid : Nat), Reachable s → Reachable (open_commit o s pos fee_level pid)
  | close_step : ∀ {s} (o : CloseOracle) (pid : Nat),
      Reachable s → Reachable (close_commit o s pid)

/-- Reference counter of tick `t` in a tick map (0 when absent). -/
def refCountM (m : List (Int × TickStateM)) (t : Int) : Nat :=
  ((alLookup m t).map (·.reference_counter)).getD 0

/-- Positions on level `l` having `t` as one of their bound ticks. -/
def posPred (l : FeeLevel) (t : Int) : Nat × PositionM → Bool :=
  fun q => decide (q.2.fee_level = l ∧ (q.2.tick_bounds.1 = t ∨ q.2.tick_bounds.2 = t))

/-- The inductive invariant tying tick maps to positions: no duplicate
keys, strictly positive stored reference counters, each counter equal
to the number of positions referencing the tick, and ordered position
bounds. -/
structure Inv (s : PoolM) : Prop where
  pos_nodup : (s.positions.map Prod.fst).Nodup
  tick_nodup : ∀ l, ((s.tick_states l).map Prod.fst).Nodup
  rc_pos : ∀ l t ts, alLookup (s.tick_states l) t = some ts → 0 < ts.reference_counter
  rc_count : ∀ l t, refCountM (s.tick_states l) t = s.positions.countP (posPred l t)
  bounds_lt : ∀ q ∈ s.positions, q.2.tick_bounds.1 < q.2.tick_bounds.2

/-! ### Concrete instances used by witnesses -/

/-- A concrete single-hop swap (state counts hops, output halves the
input) used to exercise the multi-hop orchestration. -/
def hop_half : Nat → TokenId → TokenId → Amount → Except ErrorKind (Nat × Amount) :=
  fun s _ _ a => .ok (s + 1, a / 2)

/-- A concrete account update that always succeeds, used to exercise
the multi-hop orchestration. -/
def account_ok : Nat → TokenId → Amount → TokenId → Amount → Except ErrorKind Nat :=
  fun s _ _ _ _ => .ok s

/-- A concrete `PositionInit`: amounts in `[0, 10]` on both sides, tick
range `[0, 10]`. -/
def pos1 : PositionInitM :=
  { left_min := 0, left_max := 10, right_min := 0, right_max := 10,
    ticks_range := (some 0, some 10) }

/-- A concrete open oracle under which `open_position` succeeds on a
fresh pool: initialization installs unit prices, both cache updates
take a succeeding branch, the accounted net liquidity is 1 and the
accounted deposit is one unit of each token. -/
def o_open1 : OpenOracle :=
  { init_ok := true, init_prices := fun _ => (1, 1), init_side := .Left,
    init_pivot := 0, init_sqrtprice := 1,
    unat_low := { lt := false, ens := true, eq := true },
    unat_high := { lt := true, ens := true, eq := true },
    acc_net_liquidity := some 1,
    accounted_deposit := some (UFP_SCALE, UFP_SCALE) }

/-- A concrete open oracle for a second position with the same tick
range on the already-initialized pool (both boundary ticks hit the
already-cached entries). -/
def o_open2 : OpenOracle :=
  { init_ok := true, init_prices := fun _ => (1, 1), init_side := .Left,
    init_pivot := 0, init_sqrtprice := 1,
    unat_low := { lt := false, ens := true, eq := true },
    unat_high := { lt := false, ens := true, eq := true },
    acc_net_liquidity := some 1,
    accounted_deposit := some (UFP_SCALE, UFP_SCALE) }

/-- A concrete close oracle under which
`withdraw_fee_and_close_position` succeeds: zero reward, unit balance
(raw `U256X256` one unit of each token). -/
def o_close1 : CloseOracle :=
  { fee_ok := true, reward := (0, 0), reward_ufp := (0, 0),
    balance := some (1, 1), balance_ufp := (UFP_SCALE, UFP_SCALE) }

/-- The pool after opening position 7 on a fresh pool. -/
def st1 : PoolM := open_commit o_open1 pool_init pos1 0 7

/-- The pool after additionally opening position 8 with the same range. -/
def st2 : PoolM := open_commit o_open2 st1 pos1 0 8


end Veax

/-! ### Claim theorems: C8 and C9 -/

open Veax

/-- C8: `Tick::new(value)` returns `Ok` exactly when
`MIN_TICK ≤ value ≤ MAX_TICK` (±887273), and returns
`PriceTickOutOfBounds` for every value outside that range. -/
theorem C8_tick_new_bounds (value : Int) :
    ((Tick.new value).isOk ↔ (-887273 ≤ value ∧ value ≤ 887273)) ∧
    (¬(-887273 ≤ value ∧ value ≤ 887273) →
      Tick.new value = .error .PriceTickOutOfBounds) := by
  constructor
  · unfold Tick.new Tick.is_valid MIN_TICK MAX_TICK
    by_cases h : -887273 ≤ value ∧ value ≤ 887273
    · simp [h.1, h.2, Except.isOk, Except.toBool]
    · rcases not_and_or.mp h with h1 | h1 <;>
        simp [Except.isOk, Except.toBool, h] <;> omega
  · intro h
    unfold Tick.new Tick.is_valid MIN_TICK MAX_TICK
    rcases not_and_or.mp h with h1 | h1 <;> simp <;> omega

/-- C9: for representable `U128X128` values whose sum does not overflow
the 256-bit representation, `(a + b) - b = a` exactly. -/
theorem C9_u128x128_add_sub_roundtrip (a b c : U128X128)
    (h : U128X128.add a b = some c) : U128X128.sub c b = some a := by
  unfold U128X128.add at h
  split at h
  · cases h
    unfold U128X128.sub
    simp only [Nat.le_add_left, dif_pos]
    exact congrArg some (U128X128.ext (by simp))
  · cases h

/-! ### Supporting lemmas for C5 -/

theorem iter_ones_ne_nil (n : Nat) (hn : n ≠ 0) : Veax.iter_ones n ≠ [] := by
  induction n using Nat.strong_induction_on with
  | _ n ih =>
    intro h
    rw [Veax.iter_ones, if_neg hn] at h
    rcases List.append_eq_nil.mp h with ⟨h1, h2⟩
    have h2m : Veax.iter_ones (n / 2) = [] := List.map_eq_nil.mp h2
    by_cases hp : n % 2 = 1
    · simp [hp] at h1
    · have hd : n / 2 ≠ 0 := by omega
      exact absurd h2m
        (ih (n / 2) (Nat.div_lt_self (Nat.pos_of_ne_zero hn) one_lt_two) hd)

theorem iter_ones_map_prod (k : Nat) :
    ∀ (n : Nat) (f : Nat → ℚ), n < 2 ^ k →
      ((Veax.iter_ones n).map f).prod =
        (((List.range k).filter (fun i => n.testBit i)).map f).prod := by
  induction k with
  | zero =>
    intro n f h
    interval_cases n
    simp [Veax.iter_ones]
  | succ k ih =>
    intro n f h
    by_cases hn : n = 0
    · subst hn
      simp [Veax.iter_ones, Nat.zero_testBit]
    · have hdiv : n / 2 < 2 ^ k := by
        have h2 : (2:ℕ) ^ (k + 1) = 2 ^ k * 2 := by ring
        omega
      have IH := ih (n / 2) (fun i => f (i + 1)) hdiv
      have hpred : ((fun i => n.testBit i) ∘ Nat.succ) = fun i => (n / 2).testBit i := by
        funext i
        simp [Function.comp, Nat.testBit_succ]
      have e1 : (f ∘ fun x => x + 1) = fun i => f (i + 1) := rfl
      have e2 : (f ∘ Nat.succ) = fun i => f (i + 1) := rfl
      rw [Veax.iter_ones, if_neg hn, List.range_succ_eq_map,
        List.filter_cons, List.filter_map, hpred]
      by_cases hp : n % 2 = 1
      · rw [if_pos hp, if_pos (by simp [Nat.testBit_zero, hp])]
        simp only [List.map_cons, List.map_append, List.prod_append, List.prod_cons,
          List.map_map, List.map_nil, List.prod_nil, mul_one, List.singleton_append,
          e1, e2]
        rw [IH]
      · rw [if_neg hp, if_neg (by simp [Nat.testBit_zero, hp])]
        simp only [List.nil_append, List.map_map, e1, e2]
        rw [IH]

theorem spot_sqrtprice_eq_ite (t : Int) :
    Veax.Tick.spot_sqrtprice t =
      if t = 0 then 1
      else if 0 < t then ((Veax.iter_ones t.natAbs).map Veax.precalc_factor).prod
      else ((Veax.iter_ones t.natAbs).map Veax.precalc_factor).prod⁻¹ := by
  unfold Veax.Tick.spot_sqrtprice
  by_cases h0 : t = 0
  · subst h0
    simp [Veax.iter_ones]
  · have hne : Veax.iter_ones t.natAbs ≠ [] :=
      iter_ones_ne_nil _ (Int.natAbs_ne_zero.mpr h0)
    cases hl : (Veax.iter_ones t.natAbs).map Veax.precalc_factor with
    | nil => exact absurd (List.map_eq_nil.mp hl) hne
    | cons a l =>
      rw [if_neg h0]

/-- C5: for every valid tick `t`, `spot_sqrtprice t` is the product of
the precalculated per-bit factors over exactly the bit positions set in
the binary representation of `|t|`, with the reciprocal taken when `t`
is negative; in particular `spot_sqrtprice 0 = 1`. -/
theorem C5_spot_sqrtprice_bit_product (t : Int)
    (h : Veax.Tick.is_valid t = true) :
    (Veax.Tick.spot_sqrtprice t =
      if 0 ≤ t then Veax.tick_bit_product t else (Veax.tick_bit_product t)⁻¹) ∧
    Veax.Tick.spot_sqrtprice 0 = 1 := by
  have h0 : Veax.Tick.spot_sqrtprice 0 = 1 := by
    rw [spot_sqrtprice_eq_ite]
    simp
  refine ⟨?_, h0⟩
  have hlt : t.natAbs < 2 ^ 21 := by
    unfold Veax.Tick.is_valid Veax.MIN_TICK Veax.MAX_TICK at h
    simp only [Bool.and_eq_true, decide_eq_true_eq] at h
    omega
  have hp := iter_ones_map_prod 21 t.natAbs Veax.precalc_factor hlt
  rw [spot_sqrtprice_eq_ite]
  unfold Veax.tick_bit_product
  rcases lt_trichotomy t 0 with ht | ht | ht
  · rw [if_neg (by omega), if_neg (by omega), if_neg (not_le.mpr ht), hp]
  · subst ht
    rw [if_pos rfl, if_pos le_rfl]
    simp [Nat.zero_testBit]
  · rw [if_neg (by omega), if_pos ht, if_pos (le_of_lt ht), hp]

/-- Witness for C5 at the concrete tick `t = 5`. -/
theorem C5_spot_sqrtprice_bit_product_witness :
    Veax.Tick.is_valid 5 = true ∧
    (Veax.Tick.spot_sqrtprice 5 =
      if 0 ≤ (5 : Int) then Veax.tick_bit_product 5
      else (Veax.tick_bit_product 5)⁻¹) :=
  ⟨by decide, (C5_spot_sqrtprice_bit_product 5 (by decide)).1⟩

/-- Witness for C9 at concrete inputs. -/
theorem C9_u128x128_add_sub_roundtrip_witness :
    U128X128.sub ⟨10, by norm_num [U256_SIZE]⟩ ⟨7, by norm_num [U256_SIZE]⟩
      = some ⟨3, by norm_num [U256_SIZE]⟩ :=
  C9_u128x128_add_sub_roundtrip ⟨3, by norm_num [U256_SIZE]⟩
    ⟨7, by norm_num [U256_SIZE]⟩ ⟨10, by norm_num [U256_SIZE]⟩
    (by
      unfold U128X128.add
      rw [dif_pos (by norm_num [U256_SIZE])]
      exact congrArg some (U128X128.ext rfl))

/-! ### Supporting lemmas and theorem for C3 -/

theorem ufp_ceil_to_amount_eq_ok (raw : Nat)
    (h : Veax.ufp_ceil_int raw < Veax.U128_SIZE) :
    Veax.ufp_ceil_to_amount raw = .ok (Veax.ufp_ceil_int raw) := by
  have h256 : Veax.U128_SIZE < Veax.U256_SIZE := by
    norm_num [Veax.U128_SIZE, Veax.U256_SIZE]
  unfold Veax.ufp_ceil_to_amount
  rw [if_neg (by omega), if_neg (by omega)]

theorem ufp_ceil_to_amount_ok_inv (raw a : Nat)
    (h : Veax.ufp_ceil_to_amount raw = .ok a) :
    a = Veax.ufp_ceil_int raw ∧ Veax.ufp_ceil_int raw < Veax.U128_SIZE := by
  unfold Veax.ufp_ceil_to_amount at h
  split at h
  · exact absurd h (by simp)
  · split at h
    · exact absurd h (by simp)
    · cases h
      omega

/-- C3: in the deposit-charging fragment of `open_position`, the actual
amounts charged equal the per-token ceiling of the accounted deposit and
never exceed the caller's maxima; when the would-be charge is
representable and within the maxima but below a requested minimum, the
operation fails with `WrongRatio`. -/
theorem C3_open_position_charge (left_min left_max right_min right_max : Nat)
    (accounted : Nat × Nat) (tr : Nat × Nat) :
    (∀ r, Veax.open_position_charge left_min left_max right_min right_max accounted tr
        = .ok r →
      r.1.1 = Veax.ufp_ceil_int accounted.1 ∧ r.1.2 = Veax.ufp_ceil_int accounted.2 ∧
      r.1.1 ≤ left_max ∧ r.1.2 ≤ right_max) ∧
    (Veax.ufp_ceil_int accounted.1 < Veax.U128_SIZE →
     Veax.ufp_ceil_int accounted.2 < Veax.U128_SIZE →
     Veax.ufp_ceil_int accounted.1 ≤ left_max →
     Veax.ufp_ceil_int accounted.2 ≤ right_max →
     (Veax.ufp_ceil_int accounted.1 < left_min ∨
      Veax.ufp_ceil_int accounted.2 < right_min) →
     Veax.open_position_charge left_min left_max right_min right_max accounted tr
       = .error .WrongRatio) := by
  constructor
  · intro r h
    unfold Veax.open_position_charge at h
    cases hc0 : Veax.ufp_ceil_to_amount accounted.1 with
    | error e => rw [hc0] at h; exact absurd h (by simp)
    | ok a0 =>
      rw [hc0] at h
      cases hc1 : Veax.ufp_ceil_to_amount accounted.2 with
      | error e => rw [hc1] at h; exact absurd h (by simp)
      | ok a1 =>
        rw [hc1] at h
        have ha0 := (ufp_ceil_to_amount_ok_inv _ _ hc0).1
        have ha1 := (ufp_ceil_to_amount_ok_inv _ _ hc1).1
        dsimp only at h
        repeat split at h
        any_goals exact Except.noConfusion h
        cases h
        dsimp only
        exact ⟨ha0, ha1, by omega, by omega⟩
  · intro h0 h1 hmax0 hmax1 hmin
    unfold Veax.open_position_charge
    rw [ufp_ceil_to_amount_eq_ok _ h0, ufp_ceil_to_amount_eq_ok _ h1]
    dsimp only
    by_cases hl : Veax.ufp_ceil_int accounted.1 < left_min
    · rw [if_pos hmax0, if_pos hmax1, if_neg (by omega)]
    · have hr : Veax.ufp_ceil_int accounted.2 < right_min := by omega
      rw [if_pos hmax0, if_pos hmax1, if_pos (by omega), if_neg (by omega)]

/-- Witness for C3: a successful charge at `accounted = (3 + 5/2^256, 1)`
charges the ceilings `(4, 1)`, and raising the left minimum above the
ceiling makes the charge fail with `WrongRatio`. -/
theorem C3_open_position_charge_witness :
    ((((4 : Nat), (1 : Nat)), ((4 : Nat), (1 : Nat))).1.1
        = Veax.ufp_ceil_int (3 * Veax.UFP_SCALE + 5) ∧
      (((4 : Nat), (1 : Nat)), ((4 : Nat), (1 : Nat))).1.2
        = Veax.ufp_ceil_int Veax.UFP_SCALE ∧
      (((4 : Nat), (1 : Nat)), ((4 : Nat), (1 : Nat))).1.1 ≤ 10 ∧
      (((4 : Nat), (1 : Nat)), ((4 : Nat), (1 : Nat))).1.2 ≤ 10) ∧
    Veax.open_position_charge 5 10 1 10 (3 * Veax.UFP_SCALE + 5, Veax.UFP_SCALE) (0, 0)
      = .error .WrongRatio :=
  ⟨(C3_open_position_charge 1 10 1 10 (3 * Veax.UFP_SCALE + 5, Veax.UFP_SCALE)
      (0, 0)).1 (((4, 1)), ((4, 1))) (by rfl),
   (C3_open_position_charge 5 10 1 10 (3 * Veax.UFP_SCALE + 5, Veax.UFP_SCALE)
      (0, 0)).2 (by decide) (by decide) (by decide) (by decide) (Or.inl (by decide))⟩

/-! ### Theorems for C7 -/

/-- C7 counterexample: when the next-level activation price and the
nearest active tick's effective price are both equal to the binding
price target, `try_step_to_price` classifies the step as
`TickCrossing`, not `LevelActivation`: although the level-activation
check runs first, the tick-crossing check runs second with a non-strict
comparison and overwrites the limit kind on the tie. -/
theorem C7_tie_counterexample :
    Veax.try_step_to_price_classify 1 true 2 (some 2) 3
        = .ok (2, .TickCrossing) ∧
    Veax.StepLimit.TickCrossing ≠ Veax.StepLimit.LevelActivation := by
  constructor
  · rfl
  · decide

/-- C7 amended: when the maximum price movement is limited
simultaneously by the next level activation price and by the next
active tick's effective price (both equal to the binding target), the
step is classified as `TickCrossing`: the level-activation check is
performed first, but the tick-crossing check, performed second with a
non-strict comparison, overwrites the classification on the tie. -/
theorem C7_tie_classified_as_tick_crossing (eff target new : ℚ)
    (hinit : eff ≤ new) (hbind : target ≤ new) :
    Veax.try_step_to_price_classify eff true target (some target) new
      = .ok (target, .TickCrossing) := by
  unfold Veax.try_step_to_price_classify
  rw [if_neg (by simpa using hinit)]
  simp only [true_and]
  rw [if_pos hbind]
  rw [if_neg (by simp)]
  simp

/-- Witness for C7's amended claim at concrete prices. -/
theorem C7_tie_classified_as_tick_crossing_witness :
    Veax.try_step_to_price_classify 1 true 2 (some 2) 3
      = .ok (2, .TickCrossing) :=
  C7_tie_classified_as_tick_crossing 1 2 3 (by norm_num) (by norm_num)

/-! ### Theorems for C10 -/

/-- C10 counterexample: with a zero balance, `unregister` requested and
a withdrawal of that token in flight, `withdraw_impl` with amount `0`
does not succeed: the in-place unregistration fails with
`WithdrawInProgress`. -/
theorem C10_withdraw_zero_counterexample :
    Veax.withdraw_impl ⟨[(0, 0)], [0]⟩ 0 0 true = .error .WithdrawInProgress := by
  rfl

/-- C10 amended: `withdraw_impl` with amount `0` withdraws the entire
remaining balance; if the token is unregistered, or its balance is
zero, no token send is produced and the call succeeds — except that
when `unregister` is requested with a zero balance while a withdrawal
of that token is in flight, the call fails with `WithdrawInProgress`;
in-place unregistration happens when `unregister` is requested, the
balance is zero and no withdrawal of the token is pending. -/
theorem C10_withdraw_zero_amount (acc : Veax.AccountModel) (token : Veax.TokenId)
    (unregister : Bool) :
    (∀ b, Veax.alLookup acc.token_balances token = some b → b ≠ 0 →
      Veax.withdraw_impl acc token 0 unregister =
        .ok ({ acc with token_balances := Veax.alSet acc.token_balances token 0 },
          some b)) ∧
    (Veax.alLookup acc.token_balances token = none →
      Veax.withdraw_impl acc token 0 unregister = .ok (acc, none)) ∧
    (Veax.alLookup acc.token_balances token = some 0 → unregister = false →
      Veax.withdraw_impl acc token 0 unregister = .ok (acc, none)) ∧
    (Veax.alLookup acc.token_balances token = some 0 → unregister = true →
      token ∉ acc.pending_tokens →
      Veax.withdraw_impl acc token 0 unregister =
        .ok ({ acc with token_balances := Veax.alErase acc.token_balances token },
          none)) ∧
    (Veax.alLookup acc.token_balances token = some 0 → unregister = true →
      token ∈ acc.pending_tokens →
      Veax.withdraw_impl acc token 0 unregister = .error .WithdrawInProgress) := by
  refine ⟨?_, ?_, ?_, ?_, ?_⟩
  · intro b hb hb0
    unfold Veax.withdraw_impl
    rw [if_pos rfl, hb]
    dsimp only
    rw [if_neg hb0]
    unfold Veax.account_withdraw
    rw [hb]
    dsimp only
    rw [if_pos (le_refl b), Nat.sub_self]
  · intro hb
    unfold Veax.withdraw_impl
    rw [if_pos rfl, hb]
  · intro hb hu
    subst hu
    unfold Veax.withdraw_impl
    rw [if_pos rfl, hb]
    simp
  · intro hb hu hp
    subst hu
    unfold Veax.withdraw_impl
    rw [if_pos rfl, hb]
    dsimp only
    unfold Veax.unregister_tokens
    rw [if_neg hp]
    unfold Veax.unregister_token
    rw [hb]
    rfl
  · intro hb hu hp
    subst hu
    unfold Veax.withdraw_impl
    rw [if_pos rfl, hb]
    dsimp only
    unfold Veax.unregister_tokens
    rw [if_pos hp]
    rfl

/-- Witness for C10's amended claim: full-balance withdrawal,
unregistered token, zero balance without and with unregistration, and
the pending-withdrawal failure, at concrete accounts. -/
theorem C10_withdraw_zero_amount_witness :
    Veax.withdraw_impl ⟨[(0, 5)], []⟩ 0 0 false =
      .ok ({ (⟨[(0, 5)], []⟩ : Veax.AccountModel) with
        token_balances := Veax.alSet [(0, 5)] 0 0 }, some 5) ∧
    Veax.withdraw_impl ⟨[(1, 5)], []⟩ 0 0 false = .ok (⟨[(1, 5)], []⟩, none) ∧
    Veax.withdraw_impl ⟨[(0, 0)], []⟩ 0 0 false = .ok (⟨[(0, 0)], []⟩, none) ∧
    Veax.withdraw_impl ⟨[(0, 0)], []⟩ 0 0 true =
      .ok ({ (⟨[(0, 0)], []⟩ : Veax.AccountModel) with
        token_balances := Veax.alErase [(0, 0)] 0 }, none) ∧
    Veax.withdraw_impl ⟨[(1, 0)], [1]⟩ 1 0 true = .error .WithdrawInProgress :=
  ⟨(C10_withdraw_zero_amount ⟨[(0, 5)], []⟩ 0 false).1 5 (by decide) (by decide),
   (C10_withdraw_zero_amount ⟨[(1, 5)], []⟩ 0 false).2.1 (by decide),
   (C10_withdraw_zero_amount ⟨[(0, 0)], []⟩ 0 false).2.2.1 (by decide) rfl,
   (C10_withdraw_zero_amount ⟨[(0, 0)], []⟩ 0 true).2.2.2.1 (by decide) rfl
     (by decide),
   (C10_withdraw_zero_amount ⟨[(1, 0)], [1]⟩ 1 true).2.2.2.2 (by decide) rfl
     (by decide)⟩

/-! ### Supporting lemma and theorem for C6 -/

theorem run_hops_tuple_windows {σ : Type}
    (swapHop : σ → Veax.TokenId → Veax.TokenId → Veax.Amount →
      Except ErrorKind (σ × Veax.Amount))
    (tokens : List Veax.TokenId) :
    ∀ (s : σ) (a : Veax.Amount),
      Veax.run_hops swapHop s (Veax.tuple_windows tokens) a =
        Veax.chained_swap swapHop s tokens a := by
  induction tokens with
  | nil => intro s a; rfl
  | cons t1 rest ih =>
    cases rest with
    | nil => intro s a; rfl
    | cons t2 rest2 =>
      intro s a
      rw [Veax.tuple_windows, Veax.run_hops, Veax.chained_swap]
      cases hsw : swapHop s t1 t2 a with
      | error e => rfl
      | ok sa => exact ih sa.1 sa.2

/-- C6: multi-hop `swap_exact_in` returns `(amount_in, amount_out)`
where `amount_out` is the chained application of the single-hop swap
along the path; it fails with `Slippage` when the chained output is
below `min_amount_out`, and with `AtLeastOneSwap` for paths shorter
than two tokens. -/
theorem C6_swap_exact_in_chain {σ : Type}
    (swapHop : σ → Veax.TokenId → Veax.TokenId → Veax.Amount →
      Except ErrorKind (σ × Veax.Amount))
    (accountUpdate : σ → Veax.TokenId → Veax.Amount → Veax.TokenId →
      Veax.Amount → Except ErrorKind σ)
    (s : σ) (tokens : List Veax.TokenId) (amount_in min_amount_out : Veax.Amount) :
    (∀ s1 out s2, Veax.chained_swap swapHop s tokens amount_in = .ok (s1, out) →
      2 ≤ tokens.length → min_amount_out ≤ out →
      accountUpdate s1 (tokens.head?.getD 0) amount_in (tokens.getLast?.getD 0) out
        = .ok s2 →
      Veax.swap_exact_in swapHop accountUpdate s tokens amount_in min_amount_out
        = .ok (s2, amount_in, out)) ∧
    (∀ s1 out, Veax.chained_swap swapHop s tokens amount_in = .ok (s1, out) →
      2 ≤ tokens.length → out < min_amount_out →
      Veax.swap_exact_in swapHop accountUpdate s tokens amount_in min_amount_out
        = .error .Slippage) ∧
    (tokens.length < 2 →
      Veax.swap_exact_in swapHop accountUpdate s tokens amount_in min_amount_out
        = .error .AtLeastOneSwap) := by
  refine ⟨?_, ?_, ?_⟩
  · intro s1 out s2 hchain hlen hmin hacc
    unfold Veax.swap_exact_in
    rw [if_pos hlen, run_hops_tuple_windows, hchain]
    dsimp only
    rw [if_pos hmin, hacc]
  · intro s1 out hchain hlen hmin
    unfold Veax.swap_exact_in
    rw [if_pos hlen, run_hops_tuple_windows, hchain]
    dsimp only
    rw [if_neg (Nat.not_le.mpr hmin)]
  · intro hlen
    unfold Veax.swap_exact_in
    rw [if_neg (Nat.not_le.mpr hlen)]

/-- Witness for C6: a two-hop path with the concrete halving hop. -/
theorem C6_swap_exact_in_chain_witness :
    Veax.swap_exact_in Veax.hop_half Veax.account_ok 0 [0, 1, 2] 100 20
      = .ok (2, 100, 25) :=
  (C6_swap_exact_in_chain Veax.hop_half Veax.account_ok 0 [0, 1, 2] 100 20).1
    2 25 2 (by rfl) (by decide) (by decide) (by rfl)

/-! ### Association-list lemmas supporting C2 and C4 -/

theorem alLookup_cons {K V : Type} [DecidableEq K] (p : K × V) (m : List (K × V))
    (k : K) :
    Veax.alLookup (p :: m) k = if p.1 = k then some p.2 else Veax.alLookup m k := by
  unfold Veax.alLookup
  by_cases h : p.1 = k
  · rw [List.find?_cons_of_pos _ (by simpa using h), if_pos h]
    rfl
  · rw [List.find?_cons_of_neg _ (by simpa using h), if_neg h]

theorem alLookup_none_iff {K V : Type} [DecidableEq K] (m : List (K × V)) (k : K) :
    Veax.alLookup m k = none ↔ k ∉ m.map Prod.fst := by
  induction m with
  | nil => simp [Veax.alLookup]
  | cons p m ih =>
    rw [alLookup_cons]
    by_cases h : p.1 = k
    · simp [h]
    · simp [h, ih, Ne.symm h]

theorem alLookup_isSome_iff {K V : Type} [DecidableEq K] (m : List (K × V)) (k : K) :
    (Veax.alLookup m k).isSome ↔ k ∈ m.map Prod.fst := by
  rw [Option.isSome_iff_ne_none, ne_eq, alLookup_none_iff]
  exact not_not

theorem alSet_map_fst {K V : Type} [DecidableEq K] (m : List (K × V)) (k : K)
    (v : V) : (Veax.alSet m k v).map Prod.fst = m.map Prod.fst := by
  induction m with
  | nil => rfl
  | cons p m ih =>
    unfold Veax.alSet at ih ⊢
    by_cases h : p.1 = k <;> simp [h, ih]

theorem alLookup_alSet_self {K V : Type} [DecidableEq K] {m : List (K × V)}
    {k : K} {v0 : V} (v : V) (h : Veax.alLookup m k = some v0) :
    Veax.alLookup (Veax.alSet m k v) k = some v := by
  induction m with
  | nil => simp [Veax.alLookup] at h
  | cons p m ih =>
    rw [alLookup_cons] at h
    unfold Veax.alSet
    by_cases hp : p.1 = k
    · simp only [if_pos hp, List.map_cons]
      rw [alLookup_cons]
      simp
    · rw [if_neg hp] at h
      simp only [if_neg hp, List.map_cons]
      rw [alLookup_cons, if_neg hp]
      exact ih h

theorem alLookup_alSet_ne {K V : Type} [DecidableEq K] (m : List (K × V))
    (k k2 : K) (v : V) (h : k2 ≠ k) :
    Veax.alLookup (Veax.alSet m k v) k2 = Veax.alLookup m k2 := by
  induction m with
  | nil => rfl
  | cons p m ih =>
    unfold Veax.alSet at ih ⊢
    by_cases hp : p.1 = k
    · simp only [if_pos hp, List.map_cons]
      rw [alLookup_cons, alLookup_cons, if_neg (Ne.symm h),
        if_neg (by rw [hp]; exact Ne.symm h)]
      exact ih
    · simp only [if_neg hp, List.map_cons]
      rw [alLookup_cons, alLookup_cons]
      by_cases hq : p.1 = k2
      · simp [hq]
      · rw [if_neg hq, if_neg hq]
        exact ih

theorem alErase_map_fst {K V : Type} [DecidableEq K] (m : List (K × V)) (k : K) :
    (Veax.alErase m k).map Prod.fst
      = (m.map Prod.fst).filter (fun x => decide (x ≠ k)) := by
  induction m with
  | nil => rfl
  | cons p m ih =>
    unfold Veax.alErase at ih ⊢
    by_cases h : p.1 = k <;> simp [h, List.filter_cons] <;> simpa using ih

theorem alLookup_alErase_self {K V : Type} [DecidableEq K] (m : List (K × V))
    (k : K) : Veax.alLookup (Veax.alErase m k) k = none := by
  rw [alLookup_none_iff, alErase_map_fst]
  intro hmem
  have := List.of_mem_filter hmem
  simp at this

theorem alLookup_alErase_ne {K V : Type} [DecidableEq K] (m : List (K × V))
    (k k2 : K) (h : k2 ≠ k) :
    Veax.alLookup (Veax.alErase m k) k2 = Veax.alLookup m k2 := by
  induction m with
  | nil => rfl
  | cons p m ih =>
    unfold Veax.alErase at ih ⊢
    by_cases hp : p.1 = k
    · rw [List.filter_cons_of_neg (by simp [hp])]
      rw [alLookup_cons, if_neg (by rw [hp]; exact Ne.symm h)]
      exact ih
    · rw [List.filter_cons_of_pos (by simp [hp])]
      rw [alLookup_cons, alLookup_cons]
      by_cases hq : p.1 = k2
      · simp [hq]
      · rw [if_neg hq, if_neg hq]
        exact ih

theorem alErase_alSet {K V : Type} [DecidableEq K] (m : List (K × V)) (k : K)
    (v : V) : Veax.alErase (Veax.alSet m k v) k = Veax.alErase m k := by
  induction m with
  | nil => rfl
  | cons p m ih =>
    unfold Veax.alSet Veax.alErase at ih ⊢
    by_cases h : p.1 = k <;> simp [h] <;> simpa using ih

theorem mem_of_mem_alErase {K V : Type} [DecidableEq K] {m : List (K × V)}
    {k : K} {q : K × V} (h : q ∈ Veax.alErase m k) : q ∈ m :=
  List.mem_of_mem_filter h

theorem exists_lookup_isSome_of_ne_nil {K V : Type} [DecidableEq K]
    {m : List (K × V)} (h : m ≠ []) : ∃ k, (Veax.alLookup m k).isSome := by
  cases m with
  | nil => exact absurd rfl h
  | cons p m =>
    refine ⟨p.1, ?_⟩
    rw [alLookup_cons, if_pos rfl]
    rfl

theorem mem_of_alLookup_eq_some {K V : Type} [DecidableEq K] {m : List (K × V)}
    {k : K} {v : V} (h : Veax.alLookup m k = some v) : (k, v) ∈ m := by
  induction m with
  | nil => simp [Veax.alLookup] at h
  | cons p m ih =>
    rw [alLookup_cons] at h
    by_cases hp : p.1 = k
    · rw [if_pos hp] at h
      cases h
      subst hp
      simp
    · rw [if_neg hp] at h
      exact List.mem_cons_of_mem _ (ih h)

theorem countP_alErase {K V : Type} [DecidableEq K] {m : List (K × V)} {k : K}
    {v : V} (pred : K × V → Bool) (hnd : (m.map Prod.fst).Nodup)
    (h : Veax.alLookup m k = some v) :
    (Veax.alErase m k).countP pred
      = m.countP pred - (if pred (k, v) then 1 else 0) := by
  induction m with
  | nil => simp [Veax.alLookup] at h
  | cons p m ih =>
    rw [alLookup_cons] at h
    rw [List.map_cons, List.nodup_cons] at hnd
    unfold Veax.alErase at ih ⊢
    by_cases hp : p.1 = k
    · rw [if_pos hp] at h
      cases h
      rw [List.filter_cons_of_neg (by simp [hp])]
      have hfix : m.filter (fun q => decide (q.1 ≠ k)) = m := by
        apply List.filter_eq_self.mpr
        intro q hq
        simp only [decide_eq_true_eq]
        intro hqk
        exact hnd.1 (hp ▸ hqk ▸ (List.mem_map_of_mem Prod.fst hq))
      rw [hfix, List.countP_cons]
      rcases p with ⟨p1, p2⟩
      have hpk : p1 = k := hp
      subst hpk
      by_cases hpred : pred (p1, p2) <;> simp [hpred]
    · rw [if_neg hp] at h
      rw [List.filter_cons_of_pos (by simp [hp]), List.countP_cons, List.countP_cons,
        ih hnd.2 h]
      have hmem : (k, v) ∈ m := mem_of_alLookup_eq_some h
      have hcount : (if pred (k, v) then 1 else 0) ≤ m.countP pred := by
        by_cases hpred : pred (k, v)
        · rw [if_pos hpred]
          exact List.countP_pos.mpr ⟨(k, v), hmem, hpred⟩
        · simp [hpred]
      omega

/-! ### Tick-map update specifications -/

theorem refCountM_eq_of_lookup {m : List (Int × Veax.TickStateM)} {t : Int}
    {ts : Veax.TickStateM} (h : Veax.alLookup m t = some ts) :
    Veax.refCountM m t = ts.reference_counter := by
  simp [Veax.refCountM, h]

theorem refCountM_eq_zero {m : List (Int × Veax.TickStateM)} {t : Int}
    (h : Veax.alLookup m t = none) : Veax.refCountM m t = 0 := by
  simp [Veax.refCountM, h]

theorem tick_upsert_spec {m m' : List (Int × Veax.TickStateM)} {t : Int} {d : Int}
    (h : Veax.tick_upsert m t d = .ok m') :
    (Veax.alLookup m' t).isSome = true ∧
    Veax.refCountM m' t = Veax.refCountM m t + 1 ∧
    (∀ t2, t2 ≠ t → Veax.alLookup m' t2 = Veax.alLookup m t2) ∧
    ((m.map Prod.fst).Nodup → (m'.map Prod.fst).Nodup) := by
  unfold Veax.tick_upsert at h
  cases hl : Veax.alLookup m t with
  | some ts =>
    rw [hl] at h
    dsimp only at h
    split at h
    · cases h
      have hset := alLookup_alSet_self (m := m) (k := t)
        { ts with
            net_liquidity_change := ts.net_liquidity_change + d,
            reference_counter := ts.reference_counter + 1 } hl
      refine ⟨by rw [hset]; rfl, ?_, ?_, ?_⟩
      · rw [refCountM_eq_of_lookup hset, refCountM_eq_of_lookup hl]
      · intro t2 ht2
        exact alLookup_alSet_ne m t t2 _ ht2
      · intro hnd
        rw [alSet_map_fst]
        exact hnd
    · exact Except.noConfusion h
  | none =>
    rw [hl] at h
    cases h
    have hself : Veax.alLookup ((t, { Veax.default_tick with
          net_liquidity_change := Veax.default_tick.net_liquidity_change + d,
          reference_counter := Veax.default_tick.reference_counter + 1 }) :: m) t
        = some { Veax.default_tick with
            net_liquidity_change := Veax.default_tick.net_liquidity_change + d,
            reference_counter := Veax.default_tick.reference_counter + 1 } := by
      rw [alLookup_cons, if_pos rfl]
    refine ⟨by rw [hself]; rfl, ?_, ?_, ?_⟩
    · rw [refCountM_eq_of_lookup hself, refCountM_eq_zero hl]
      rfl
    · intro t2 ht2
      rw [alLookup_cons, if_neg (Ne.symm ht2)]
    · intro hnd
      rw [List.map_cons]
      exact List.nodup_cons.mpr ⟨(alLookup_none_iff m t).mp hl, hnd⟩

theorem tick_close_update_spec {m m' : List (Int × Veax.TickStateM)} {t d : Int}
    {deact : Bool} (h : Veax.tick_close_update m t d = .ok (m', deact)) :
    ∃ ts, Veax.alLookup m t = some ts ∧ 1 ≤ ts.reference_counter ∧
      deact = decide (ts.reference_counter = 1) ∧
      Veax.refCountM m' t = Veax.refCountM m t - 1 ∧
      (Veax.alContains m' t = true ↔ ts.reference_counter ≠ 1) ∧
      (∀ ts2, Veax.alLookup m' t = some ts2 →
        ts2.reference_counter = ts.reference_counter - 1) ∧
      (∀ t2, t2 ≠ t → Veax.alLookup m' t2 = Veax.alLookup m t2) ∧
      ((m.map Prod.fst).Nodup → (m'.map Prod.fst).Nodup) := by
  unfold Veax.tick_close_update at h
  cases hl : Veax.alLookup m t with
  | none =>
    rw [hl] at h
    exact Except.noConfusion h
  | some ts =>
    rw [hl] at h
    dsimp only at h
    split at h
    case isFalse => exact Except.noConfusion h
    case isTrue hrc =>
      split at h
      case isTrue hone =>
        have hone2 : ts.reference_counter = 1 := by omega
        split at h
        case isTrue hcont => exact Except.noConfusion h
        case isFalse hcont =>
          cases h
          refine ⟨ts, rfl, hrc, by simp [hone2], ?_, ?_, ?_, ?_, ?_⟩
          · rw [refCountM_eq_zero (alLookup_alErase_self m t),
              refCountM_eq_of_lookup hl, hone2]
          · unfold Veax.alContains
            rw [alLookup_alErase_self m t]
            simp [hone2]
          · intro ts2 hts2
            rw [alLookup_alErase_self m t] at hts2
            exact Option.noConfusion hts2
          · intro t2 ht2
            exact alLookup_alErase_ne m t t2 ht2
          · intro hnd
            rw [alErase_map_fst]
            exact List.Nodup.filter _ hnd
      case isFalse hone =>
        cases h
        have hset := alLookup_alSet_self (m := m) (k := t)
          { ts with
              net_liquidity_change := ts.net_liquidity_change + d,
              reference_counter := ts.reference_counter - 1 } hl
        refine ⟨ts, rfl, hrc, by simp; omega, ?_, ?_, ?_, ?_, ?_⟩
        · rw [refCountM_eq_of_lookup hset, refCountM_eq_of_lookup hl]
        · unfold Veax.alContains
          rw [hset]
          simp
          omega
        · intro ts2 hts2
          rw [hset] at hts2
          cases hts2
          rfl
        · intro t2 ht2
          exact alLookup_alSet_ne m t t2 _ ht2
        · intro hnd
          rw [alSet_map_fst]
          exact hnd

/-! ### Stage specifications for `open_position` and
`withdraw_fee_and_close_position` -/

theorem open_validate_lt {pos : Veax.PositionInitM} {tlh : Int × Int}
    (h : Veax.open_validate pos = .ok tlh) : tlh.1 < tlh.2 := by
  unfold Veax.open_validate at h
  cases hu : Veax.unwrap_range pos.ticks_range with
  | error e =>
    rw [hu] at h
    exact Except.noConfusion h
  | ok t0 =>
    rw [hu] at h
    dsimp only at h
    by_cases h1 : pos.left_min ≤ pos.left_max
    · rw [if_pos h1] at h
      by_cases h2 : pos.right_min ≤ pos.right_max
      · rw [if_pos h2] at h
        by_cases h3 : t0.1 < t0.2
        · rw [if_pos h3] at h
          cases h
          exact h3
        · rw [if_neg h3] at h
          exact Except.noConfusion h
      · rw [if_neg h2] at h
        exact Except.noConfusion h
    · rw [if_neg h1] at h
      exact Except.noConfusion h

theorem open_init_pool_fields {o : Veax.OpenOracle} {s s1 : Veax.PoolM}
    (h : Veax.open_init_pool o s = .ok s1) :
    s1.positions = s.positions ∧ s1.tick_states = s.tick_states := by
  unfold Veax.open_init_pool at h
  by_cases h1 : Veax.is_spot_price_set s = true
  · rw [if_pos h1] at h
    cases h
    exact ⟨rfl, rfl⟩
  · rw [if_neg h1] at h
    by_cases h2 : o.init_ok = true
    · rw [if_pos h2] at h
      cases h
      exact ⟨rfl, rfl⟩
    · rw [if_neg h2] at h
      exact Except.noConfusion h

theorem unat_fields {o : Veax.UNATOracle} {s s2 : Veax.PoolM} {t : Int}
    {l : Veax.FeeLevel} (h : Veax.update_next_active_ticks o s t l = .ok s2) :
    s2.positions = s.positions ∧ s2.tick_states = s.tick_states := by
  unfold Veax.update_next_active_ticks at h
  by_cases h1 : o.lt = true
  · rw [if_pos h1] at h
    by_cases h2 : o.ens = true
    · rw [if_pos h2] at h
      by_cases h3 : Veax.optGtSome (s.next_active_ticks_right l) t = true
      · rw [if_pos h3] at h
        cases h
        exact ⟨rfl, rfl⟩
      · rw [if_neg h3] at h
        exact Except.noConfusion h
    · rw [if_neg h2] at h
      exact Except.noConfusion h
  · rw [if_neg h1] at h
    by_cases h2 : o.ens = true
    · rw [if_pos h2] at h
      by_cases h3 : s.next_active_ticks_left l = some t
      · rw [if_pos h3] at h
        by_cases h4 : o.eq = true
        · rw [if_pos h4] at h
          cases h
          exact ⟨rfl, rfl⟩
        · rw [if_neg h4] at h
          exact Except.noConfusion h
      · rw [if_neg h3] at h
        cases h
        exact ⟨rfl, rfl⟩
    · rw [if_neg h2] at h
      exact Except.noConfusion h

theorem close_balance_update_fields {s2 s3 : Veax.PoolM} {l : Veax.FeeLevel}
    {bal balu : Nat × Nat} (h : Veax.close_balance_update s2 l bal balu = .ok s3) :
    s3.positions = s2.positions ∧ s3.tick_states = s2.tick_states ∧
    s3.eff_sqrtprices = s2.eff_sqrtprices ∧
    s3.top_active_level = s2.top_active_level ∧
    s3.next_active_ticks_left = s2.next_active_ticks_left ∧
    s3.next_active_ticks_right = s2.next_active_ticks_right := by
  unfold Veax.close_balance_update at h
  by_cases h1 : bal.1 ≤ s2.total_reserves.1 ∧ bal.2 ≤ s2.total_reserves.2 ∧
      balu.1 ≤ (s2.position_reserves l).1 ∧ balu.2 ≤ (s2.position_reserves l).2
  · rw [if_pos h1] at h
    cases h
    exact ⟨rfl, rfl, rfl, rfl, rfl, rfl⟩
  · rw [if_neg h1] at h
    exact Except.noConfusion h

theorem close_net_liquidity_fields {s3 s4 : Veax.PoolM} {l : Veax.FeeLevel}
    {low high : Int} {liq : Nat}
    (h : Veax.close_net_liquidity s3 l low high liq = .ok s4) :
    s4.positions = s3.positions ∧ s4.tick_states = s3.tick_states ∧
    s4.eff_sqrtprices = s3.eff_sqrtprices ∧
    s4.top_active_level = s3.top_active_level := by
  unfold Veax.close_net_liquidity at h
  cases hcmp : Veax.cmp_spot_price_to_position_range s3 l low high with
  | error e =>
    rw [hcmp] at h
    exact Except.noConfusion h
  | ok ord =>
    rw [hcmp] at h
    dsimp only at h
    by_cases h1 : ord = .eq
    · rw [if_pos h1] at h
      by_cases h2 : liq ≤ s3.net_liquidities l
      · rw [if_pos h2] at h
        cases h
        exact ⟨rfl, rfl, rfl, rfl⟩
      · rw [if_neg h2] at h
        exact Except.noConfusion h
    · rw [if_neg h1] at h
      cases h
      exact ⟨rfl, rfl, rfl, rfl⟩

theorem close_tick_step_spec {s s5 : Veax.PoolM} {l : Veax.FeeLevel} {t d : Int}
    (h : Veax.close_tick_step s l t d = .ok s5) :
    ∃ m2 deact, Veax.tick_close_update (s.tick_states l) t d = .ok (m2, deact) ∧
      s5.tick_states = Function.update s.tick_states l m2 ∧
      s5.positions = s.positions ∧
      s5.eff_sqrtprices = s.eff_sqrtprices ∧
      s5.top_active_level = s.top_active_level := by
  unfold Veax.close_tick_step at h
  cases htc : Veax.tick_close_update (s.tick_states l) t d with
  | error e =>
    rw [htc] at h
    exact Except.noConfusion h
  | ok md =>
    rw [htc] at h
    dsimp only at h
    refine ⟨md.1, md.2, rfl, ?_⟩
    by_cases hd : md.2 = true
    · rw [if_pos hd] at h
      cases h
      refine ⟨?_, ?_, ?_, ?_⟩ <;> (repeat' split) <;> rfl
    · rw [if_neg hd] at h
      cases h
      exact ⟨rfl, rfl, rfl, rfl⟩

theorem close_reset_if_empty_spec {s6 r1 : Veax.PoolM} {fees bal f2 b2 : Nat × Nat}
    (h : Veax.close_reset_if_empty s6 fees bal = .ok (r1, f2, b2)) :
    r1.positions = s6.positions ∧ r1.tick_states = s6.tick_states ∧
    (Veax.contains_any_positions s6 = true →
      r1.eff_sqrtprices = s6.eff_sqrtprices ∧
      r1.top_active_level = s6.top_active_level) ∧
    (Veax.contains_any_positions s6 = false →
      r1.eff_sqrtprices = (fun _ => ((0 : ℚ), (0 : ℚ))) ∧
      r1.top_active_level = 0) := by
  unfold Veax.close_reset_if_empty at h
  cases hc : Veax.contains_any_positions s6 with
  | true =>
    rw [hc] at h
    dsimp only at h
    cases h
    exact ⟨rfl, rfl, fun _ => ⟨rfl, rfl⟩, fun hf => Bool.noConfusion hf⟩
  | false =>
    rw [hc] at h
    dsimp only at h
    by_cases h1 : (List.finRange 8).all
        (fun l => (s6.next_active_ticks_left l).isNone) = true
    · rw [if_pos h1] at h
      by_cases h2 : (List.finRange 8).all
          (fun l => (s6.next_active_ticks_right l).isNone) = true
      · rw [if_pos h2] at h
        cases h
        exact ⟨rfl, rfl, fun ht => Bool.noConfusion ht, fun _ => ⟨rfl, rfl⟩⟩
      · rw [if_neg h2] at h
        exact Except.noConfusion h
    · rw [if_neg h1] at h
      exact Except.noConfusion h

theorem open_ticks_update_spec {s3 : Veax.PoolM} {l : Veax.FeeLevel}
    {tlh : Int × Int} {liq : Nat} {m2 : List (Int × Veax.TickStateM)}
    (h : Veax.open_ticks_update s3 l tlh liq = .ok m2) :
    ∃ m1, Veax.tick_upsert (s3.tick_states l) tlh.1 (Int.ofNat liq) = .ok m1 ∧
      Veax.tick_upsert m1 tlh.2 (-(Int.ofNat liq)) = .ok m2 := by
  unfold Veax.open_ticks_update at h
  cases h1 : Veax.tick_upsert (s3.tick_states l) tlh.1 (Int.ofNat liq) with
  | error e =>
    rw [h1] at h
    exact Except.noConfusion h
  | ok m1 =>
    rw [h1] at h
    exact ⟨m1, rfl, h⟩

theorem open_reserves_update_fields {s6 s7 : Veax.PoolM} {l : Veax.FeeLevel}
    {dep : Nat × Nat} (h : Veax.open_reserves_update s6 l dep = .ok s7) :
    s7.positions = s6.positions ∧ s7.tick_states = s6.tick_states := by
  unfold Veax.open_reserves_update at h
  by_cases h1 : (s6.position_reserves l).1 + dep.1 < 2 ^ 512 ∧
      (s6.position_reserves l).2 + dep.2 < 2 ^ 512
  · rw [if_pos h1] at h
    cases h
    exact ⟨rfl, rfl⟩
  · rw [if_neg h1] at h
    exact Except.noConfusion h

theorem open_net_liquidity_fields {s7 s8 : Veax.PoolM} {l : Veax.FeeLevel}
    {tlh : Int × Int} {liq : Nat}
    (h : Veax.open_net_liquidity s7 l tlh liq = .ok s8) :
    s8.positions = s7.positions ∧ s8.tick_states = s7.tick_states := by
  unfold Veax.open_net_liquidity at h
  cases hcmp : Veax.cmp_spot_price_to_position_range s7 l tlh.1 tlh.2 with
  | error e =>
    rw [hcmp] at h
    exact Except.noConfusion h
  | ok ord =>
    rw [hcmp] at h
    dsimp only at h
    by_cases h1 : ord = .eq
    · rw [if_pos h1] at h
      by_cases h2 : s7.net_liquidities l + liq < 2 ^ 256
      · rw [if_pos h2] at h
        cases h
        exact ⟨rfl, rfl⟩
      · rw [if_neg h2] at h
        exact Except.noConfusion h
    · rw [if_neg h1] at h
      cases h
      exact ⟨rfl, rfl⟩

theorem open_charge_commit_fields {s8 : Veax.PoolM} {pos : Veax.PositionInitM}
    {dep : Nat × Nat} {liq : Nat} {r : Veax.PoolM × (Nat × Nat) × Nat}
    (h : Veax.open_charge_commit s8 pos dep liq = .ok r) :
    r.1.positions = s8.positions ∧ r.1.tick_states = s8.tick_states := by
  unfold Veax.open_charge_commit at h
  cases hch : Veax.open_position_charge pos.left_min pos.left_max pos.right_min
      pos.right_max dep s8.total_reserves with
  | error e =>
    rw [hch] at h
    exact Except.noConfusion h
  | ok rr =>
    rw [hch] at h
    cases h
    exact ⟨rfl, rfl⟩

theorem open_position_rest_facts {o : Veax.OpenOracle} {s3 : Veax.PoolM}
    {pos : Veax.PositionInitM} {fee_level : Veax.FeeLevel} {pid : Nat}
    {tlh : Int × Int} {liq : Nat} {snap : ℚ × ℚ}
    {r : Veax.PoolM × (Nat × Nat) × Nat}
    (h : Veax.open_position_rest o s3 pos fee_level pid tlh liq snap = .ok r) :
    ∃ m1 m2,
      Veax.tick_upsert (s3.tick_states fee_level) tlh.1 (Int.ofNat liq) = .ok m1 ∧
      Veax.tick_upsert m1 tlh.2 (-(Int.ofNat liq)) = .ok m2 ∧
      r.1.positions = ((pid,
        { fee_level := fee_level, net_liquidity := liq,
          init_acc_lp_fees_per_fee_liquidity := snap,
          unwithdrawn_acc_lp_fees_per_fee_liquidity := snap,
          init_sqrtprice := o.init_sqrtprice,
          tick_bounds := tlh }) : Nat × Veax.PositionM) :: s3.positions ∧
      r.1.tick_states = Function.update s3.tick_states fee_level m2 := by
  unfold Veax.open_position_rest at h
  cases htk : Veax.open_ticks_update s3 fee_level tlh liq with
  | error e =>
    rw [htk] at h
    exact Except.noConfusion h
  | ok m2 =>
    rw [htk] at h
    obtain ⟨m1, h1, h2⟩ := open_ticks_update_spec htk
    cases hdep : o.accounted_deposit with
    | none =>
      rw [hdep] at h
      exact Except.noConfusion h
    | some dep =>
      rw [hdep] at h
      dsimp only at h
      split at h
      case h_1 e heq => exact Except.noConfusion h
      case h_2 s7 heq =>
        obtain ⟨h7p, h7t⟩ := open_reserves_update_fields heq
        split at h
        case h_1 e heq2 => exact Except.noConfusion h
        case h_2 s8 heq2 =>
          obtain ⟨h8p, h8t⟩ := open_net_liquidity_fields heq2
          obtain ⟨hrp, hrt⟩ := open_charge_commit_fields h
          refine ⟨m1, m2, h1, h2, ?_, ?_⟩
          · rw [hrp, h8p, h7p]
          · rw [hrt, h8t, h7t]

theorem open_ok_facts {o : Veax.OpenOracle} {s : Veax.PoolM}
    {pos : Veax.PositionInitM} {l : Veax.FeeLevel} {pid : Nat}
    {r : Veax.PoolM × (Nat × Nat) × Nat}
    (h : Veax.open_position o s pos l pid = .ok r) :
    ∃ tlh liq snap m1 m2,
      Veax.open_validate pos = .ok tlh ∧
      tlh.1 < tlh.2 ∧
      Veax.alContains s.positions pid = false ∧
      Veax.tick_upsert (s.tick_states l) tlh.1 (Int.ofNat liq) = .ok m1 ∧
      Veax.tick_upsert m1 tlh.2 (-(Int.ofNat liq)) = .ok m2 ∧
      r.1.positions = ((pid,
        { fee_level := l, net_liquidity := liq,
          init_acc_lp_fees_per_fee_liquidity := snap,
          unwithdrawn_acc_lp_fees_per_fee_liquidity := snap,
          init_sqrtprice := o.init_sqrtprice,
          tick_bounds := tlh }) : Nat × Veax.PositionM) :: s.positions ∧
      r.1.tick_states = Function.update s.tick_states l m2 := by
  unfold Veax.open_position at h
  cases hv : Veax.open_validate pos with
  | error e =>
    rw [hv] at h
    exact Except.noConfusion h
  | ok tlh =>
    rw [hv] at h
    dsimp only at h
    cases hip : Veax.open_init_pool o s with
    | error e =>
      rw [hip] at h
      exact Except.noConfusion h
    | ok s1 =>
      rw [hip] at h
      dsimp only at h
      obtain ⟨h1p, h1t⟩ := open_init_pool_fields hip
      cases hu1 : Veax.update_next_active_ticks o.unat_low s1 tlh.1 l with
      | error e =>
        rw [hu1] at h
        exact Except.noConfusion h
      | ok s2 =>
        rw [hu1] at h
        dsimp only at h
        obtain ⟨h2p, h2t⟩ := unat_fields hu1
        cases hu2 : Veax.update_next_active_ticks o.unat_high s2 tlh.2 l with
        | error e =>
          rw [hu2] at h
          exact Except.noConfusion h
        | ok s3 =>
          rw [hu2] at h
          dsimp only at h
          obtain ⟨h3p, h3t⟩ := unat_fields hu2
          cases hcm : Veax.cmp_spot_price_to_position_range s3 l tlh.1 tlh.2 with
          | error e =>
            rw [hcm] at h
            exact Except.noConfusion h
          | ok ord =>
            rw [hcm] at h
            dsimp only at h
            cases hliq : o.acc_net_liquidity with
            | none =>
              rw [hliq] at h
              exact Except.noConfusion h
            | some liq =>
              rw [hliq] at h
              dsimp only at h
              cases har : Veax.acc_range_lp_fees s3 l tlh.1 tlh.2 with
              | error e =>
                rw [har] at h
                exact Except.noConfusion h
              | ok snap =>
                rw [har] at h
                dsimp only at h
                by_cases hcont : Veax.alContains s3.positions pid = true
                · rw [if_pos hcont] at h
                  exact Except.noConfusion h
                · rw [if_neg hcont] at h
                  have hcont2 : Veax.alContains s.positions pid = false := by
                    rw [← h1p, ← h2p, ← h3p]
                    exact Bool.not_eq_true _ ▸ Bool.eq_false_iff.mpr
                      (fun hx => hcont (by rw [hx]))
                  obtain ⟨m1, m2, hup1, hup2, hrpos, hrticks⟩ :=
                    open_position_rest_facts h
                  rw [h3t, h2t, h1t] at hup1
                  rw [h3p, h2p, h1p] at hrpos
                  rw [h3t, h2t, h1t] at hrticks
                  exact ⟨tlh, liq, snap, m1, m2, rfl, open_validate_lt hv,
                    hcont2, hup1, hup2, hrpos, hrticks⟩

theorem withdraw_fee_facts {o : Veax.CloseOracle} {s s1 : Veax.PoolM} {pid : Nat}
    (h : Veax.withdraw_fee o s pid = .ok s1) :
    ∃ pos snap, Veax.alLookup s.positions pid = some pos ∧
      s1.positions = Veax.alSet s.positions pid
        { pos with unwithdrawn_acc_lp_fees_per_fee_liquidity := snap } ∧
      s1.tick_states = s.tick_states ∧
      s1.eff_sqrtprices = s.eff_sqrtprices ∧
      s1.top_active_level = s.top_active_level := by
  unfold Veax.withdraw_fee at h
  cases hl : Veax.alLookup s.positions pid with
  | none =>
    rw [hl] at h
    exact Except.noConfusion h
  | some pos =>
    rw [hl] at h
    dsimp only at h
    cases hsn : Veax.acc_range_lp_fees s pos.fee_level pos.tick_bounds.1
        pos.tick_bounds.2 with
    | error e =>
      rw [hsn] at h
      exact Except.noConfusion h
    | ok snap =>
      rw [hsn] at h
      dsimp only at h
      by_cases hf : o.fee_ok = true
      · rw [if_pos hf] at h
        by_cases hb : o.reward.1 ≤ s.total_reserves.1 ∧
            o.reward.2 ≤ s.total_reserves.2 ∧
            o.reward_ufp.1 ≤ s.acc_lp_fee.1 ∧ o.reward_ufp.2 ≤ s.acc_lp_fee.2
        · rw [if_pos hb] at h
          cases h
          exact ⟨pos, snap, rfl, rfl, rfl, rfl, rfl⟩
        · rw [if_neg hb] at h
          exact Except.noConfusion h
      · rw [if_neg hf] at h
        exact Except.noConfusion h

theorem close_ok_facts {o : Veax.CloseOracle} {s : Veax.PoolM} {pid : Nat}
    {r : Veax.PoolM × (Nat × Nat) × (Nat × Nat)}
    (h : Veax.withdraw_fee_and_close_position o s pid = .ok r) :
    ∃ pos m1 deact1 m2 deact2,
      Veax.alLookup s.positions pid = some pos ∧
      Veax.tick_close_update (s.tick_states pos.fee_level) pos.tick_bounds.1
        (-(Int.ofNat pos.net_liquidity)) = .ok (m1, deact1) ∧
      Veax.tick_close_update m1 pos.tick_bounds.2
        (Int.ofNat pos.net_liquidity) = .ok (m2, deact2) ∧
      r.1.positions = Veax.alErase s.positions pid ∧
      r.1.tick_states = Function.update s.tick_states pos.fee_level m2 ∧
      (Veax.any_tick_states (Function.update s.tick_states pos.fee_level m2) = true →
        r.1.eff_sqrtprices = s.eff_sqrtprices ∧
        r.1.top_active_level = s.top_active_level) ∧
      (Veax.any_tick_states (Function.update s.tick_states pos.fee_level m2) = false →
        r.1.eff_sqrtprices = (fun _ => ((0 : ℚ), (0 : ℚ))) ∧
        r.1.top_active_level = 0) := by
  unfold Veax.withdraw_fee_and_close_position at h
  cases hw : Veax.withdraw_fee o s pid with
  | error e =>
    rw [hw] at h
    exact Except.noConfusion h
  | ok s1 =>
    rw [hw] at h
    dsimp only at h
    obtain ⟨pos, snap, hl, hs1p, hs1t, hs1e, hs1top⟩ := withdraw_fee_facts hw
    have hl2 : Veax.alLookup s1.positions pid = some
        { pos with unwithdrawn_acc_lp_fees_per_fee_liquidity := snap } := by
      rw [hs1p]
      exact alLookup_alSet_self _ hl
    rw [hl2] at h
    dsimp only at h
    cases hb : o.balance with
    | none =>
      rw [hb] at h
      exact Except.noConfusion h
    | some bal =>
      rw [hb] at h
      dsimp only at h
      cases hcb : Veax.close_balance_update
          { s1 with positions := Veax.alErase s1.positions pid }
          pos.fee_level bal o.balance_ufp with
      | error e =>
        rw [hcb] at h
        exact Except.noConfusion h
      | ok s3 =>
        rw [hcb] at h
        dsimp only at h
        obtain ⟨hs3p, hs3t, hs3e, hs3top, _, _⟩ := close_balance_update_fields hcb
        cases hcn : Veax.close_net_liquidity s3 pos.fee_level pos.tick_bounds.1
            pos.tick_bounds.2 pos.net_liquidity with
        | error e =>
          rw [hcn] at h
          exact Except.noConfusion h
        | ok s4 =>
          rw [hcn] at h
          dsimp only at h
          obtain ⟨hs4p, hs4t, hs4e, hs4top⟩ := close_net_liquidity_fields hcn
          cases hct1 : Veax.close_tick_step s4 pos.fee_level pos.tick_bounds.1
              (-(Int.ofNat pos.net_liquidity)) with
          | error e =>
            rw [hct1] at h
            exact Except.noConfusion h
          | ok s5 =>
            rw [hct1] at h
            dsimp only at h
            obtain ⟨m1, deact1, htc1, hs5t, hs5p, hs5e, hs5top⟩ :=
              close_tick_step_spec hct1
            cases hct2 : Veax.close_tick_step s5 pos.fee_level pos.tick_bounds.2
                (Int.ofNat pos.net_liquidity) with
            | error e =>
              rw [hct2] at h
              exact Except.noConfusion h
            | ok s6 =>
              rw [hct2] at h
              dsimp only at h
              obtain ⟨m2, deact2, htc2, hs6t, hs6p, hs6e, hs6top⟩ :=
                close_tick_step_spec hct2
              have hs4ts : s4.tick_states = s.tick_states := by
                rw [hs4t, hs3t]
                exact hs1t
              rw [hs4ts] at htc1
              rw [hs5t, hs4ts, Function.update_same] at htc2
              have hs6t2 : s6.tick_states =
                  Function.update s.tick_states pos.fee_level m2 := by
                rw [hs6t, hs5t, hs4ts, Function.update_idem]
              have hs6p2 : s6.positions = Veax.alErase s.positions pid := by
                rw [hs6p, hs5p, hs4p, hs3p]
                show Veax.alErase s1.positions pid = _
                rw [hs1p]
                exact alErase_alSet s.positions pid _
              have hs6e2 : s6.eff_sqrtprices = s.eff_sqrtprices := by
                rw [hs6e, hs5e, hs4e, hs3e]
                exact hs1e
              have hs6top2 : s6.top_active_level = s.top_active_level := by
                rw [hs6top, hs5top, hs4top, hs3top]
                exact hs1top
              obtain ⟨hr1p, hr1t, hrt, hrf⟩ := close_reset_if_empty_spec h
              have hc : Veax.contains_any_positions s6 =
                  Veax.any_tick_states
                    (Function.update s.tick_states pos.fee_level m2) := by
                unfold Veax.contains_any_positions
                rw [hs6t2]
              refine ⟨pos, m1, deact1, m2, deact2, hl, htc1, htc2, ?_, ?_, ?_, ?_⟩
              · rw [hr1p, hs6p2]
              · rw [hr1t, hs6t2]
              · intro ht
                obtain ⟨he, htop⟩ := hrt (by rw [hc]; exact ht)
                exact ⟨by rw [he, hs6e2], by rw [htop, hs6top2]⟩
              · intro hf
                exact hrf (by rw [hc]; exact hf)

theorem refCountM_congr {m m2 : List (Int × Veax.TickStateM)} {t : Int}
    (h : Veax.alLookup m2 t = Veax.alLookup m t) :
    Veax.refCountM m2 t = Veax.refCountM m t := by
  unfold Veax.refCountM
  rw [h]

theorem alLookup_eq_none_of_alContains_false {K V : Type} [DecidableEq K]
    {m : List (K × V)} {k : K} (h : Veax.alContains m k = false) :
    Veax.alLookup m k = none := by
  cases hx : Veax.alLookup m k with
  | none => rfl
  | some v =>
    unfold Veax.alContains at h
    rw [hx] at h
    exact Bool.noConfusion h

theorem open_preserves_inv {o : Veax.OpenOracle} {s : Veax.PoolM}
    {pos : Veax.PositionInitM} {l : Veax.FeeLevel} {pid : Nat}
    {r : Veax.PoolM × (Nat × Nat) × Nat}
    (h : Veax.open_position o s pos l pid = .ok r) (hs : Veax.Inv s) :
    Veax.Inv r.1 := by
  obtain ⟨tlh, liq, snap, m1, m2, hv, hlt, hcont, hu1, hu2, hrp, hrt⟩ :=
    open_ok_facts h
  obtain ⟨hm1some, hm1rc, hm1other, hm1nd⟩ := tick_upsert_spec hu1
  obtain ⟨hm2some, hm2rc, hm2other, hm2nd⟩ := tick_upsert_spec hu2
  have hpid : pid ∉ s.positions.map Prod.fst :=
    (alLookup_none_iff s.positions pid).mp
      (alLookup_eq_none_of_alContains_false hcont)
  have hne12 : tlh.1 ≠ tlh.2 := ne_of_lt hlt
  refine ⟨?_, ?_, ?_, ?_, ?_⟩
  · rw [hrp, List.map_cons]
    exact List.nodup_cons.mpr ⟨hpid, hs.pos_nodup⟩
  · intro lv
    rw [hrt]
    by_cases hlv : lv = l
    · subst hlv
      rw [Function.update_same]
      exact hm2nd (hm1nd (hs.tick_nodup lv))
    · rw [Function.update_noteq hlv]
      exact hs.tick_nodup lv
  · intro lv t ts hts
    rw [hrt] at hts
    by_cases hlv : lv = l
    · subst hlv
      rw [Function.update_same] at hts
      by_cases ht2 : t = tlh.2
      · subst ht2
        have hrc := refCountM_eq_of_lookup hts
        omega
      · rw [hm2other t ht2] at hts
        by_cases ht1 : t = tlh.1
        · subst ht1
          have hrc := refCountM_eq_of_lookup hts
          omega
        · rw [hm1other t ht1] at hts
          exact hs.rc_pos lv t ts hts
    · rw [Function.update_noteq hlv] at hts
      exact hs.rc_pos lv t ts hts
  · intro lv t
    rw [hrt, hrp, List.countP_cons]
    by_cases hlv : lv = l
    · subst hlv
      rw [Function.update_same]
      by_cases ht1 : tlh.1 = t
      · subst ht1
        by_cases ht2 : tlh.2 = tlh.1
        · omega
        · have hc1 : Veax.refCountM m2 tlh.1 = Veax.refCountM m1 tlh.1 :=
            refCountM_congr (hm2other tlh.1 (fun hx => ht2 hx.symm))
          have hcond : Veax.posPred lv tlh.1
              (pid, { fee_level := lv, net_liquidity := liq,
                      init_acc_lp_fees_per_fee_liquidity := snap,
                      unwithdrawn_acc_lp_fees_per_fee_liquidity := snap,
                      init_sqrtprice := o.init_sqrtprice,
                      tick_bounds := tlh }) = true := by
            unfold Veax.posPred
            simp
          rw [hcond]
          rw [hc1, hm1rc, hs.rc_count lv tlh.1]
          simp
      · by_cases ht2 : tlh.2 = t
        · subst ht2
          have hc1 : Veax.refCountM m1 tlh.2
              = Veax.refCountM (s.tick_states lv) tlh.2 :=
            refCountM_congr (hm1other tlh.2 (fun hx => ht1 hx.symm))
          have hcond : Veax.posPred lv tlh.2
              (pid, { fee_level := lv, net_liquidity := liq,
                      init_acc_lp_fees_per_fee_liquidity := snap,
                      unwithdrawn_acc_lp_fees_per_fee_liquidity := snap,
                      init_sqrtprice := o.init_sqrtprice,
                      tick_bounds := tlh }) = true := by
            unfold Veax.posPred
            simp
          rw [hcond]
          rw [hm2rc, hc1, hs.rc_count lv tlh.2]
          simp
        · have hc2 : Veax.refCountM m2 t = Veax.refCountM m1 t :=
            refCountM_congr (hm2other t (fun hx => ht2 hx.symm))
          have hc1 : Veax.refCountM m1 t
              = Veax.refCountM (s.tick_states lv) t :=
            refCountM_congr (hm1other t (fun hx => ht1 hx.symm))
          have hcond : Veax.posPred lv t
              (pid, { fee_level := lv, net_liquidity := liq,
                      init_acc_lp_fees_per_fee_liquidity := snap,
                      unwithdrawn_acc_lp_fees_per_fee_liquidity := snap,
                      init_sqrtprice := o.init_sqrtprice,
                      tick_bounds := tlh }) = false := by
            unfold Veax.posPred
            simp [ht1, ht2]
          rw [hcond]
          rw [hc2, hc1, hs.rc_count lv t]
          simp
    · rw [Function.update_noteq hlv]
      have hcond : Veax.posPred lv t
          (pid, { fee_level := l, net_liquidity := liq,
                  init_acc_lp_fees_per_fee_liquidity := snap,
                  unwithdrawn_acc_lp_fees_per_fee_liquidity := snap,
                  init_sqrtprice := o.init_sqrtprice,
                  tick_bounds := tlh }) = false := by
        unfold Veax.posPred
        simp
        intro hx
        exact absurd hx.symm hlv
      rw [hcond]
      rw [hs.rc_count lv t]
      simp
  · intro q hq
    rw [hrp] at hq
    cases List.mem_cons.mp hq with
    | inl hq1 =>
      rw [hq1]
      exact hlt
    | inr hq2 =>
      exact hs.bounds_lt q hq2

theorem close_preserves_inv {o : Veax.CloseOracle} {s : Veax.PoolM} {pid : Nat}
    {r : Veax.PoolM × (Nat × Nat) × (Nat × Nat)}
    (h : Veax.withdraw_fee_and_close_position o s pid = .ok r)
    (hs : Veax.Inv s) : Veax.Inv r.1 := by
  obtain ⟨pos, m1, deact1, m2, deact2, hl, htc1, htc2, hrp, hrt, _, _⟩ :=
    close_ok_facts h
  obtain ⟨ts1, hts1, hge1, hdeq1, hsub1, hcnt1, hval1, hother1, hnd1⟩ :=
    tick_close_update_spec htc1
  obtain ⟨ts2, hts2, hge2, hdeq2, hsub2, hcnt2, hval2, hother2, hnd2⟩ :=
    tick_close_update_spec htc2
  have hlt : pos.tick_bounds.1 < pos.tick_bounds.2 :=
    hs.bounds_lt (pid, pos) (mem_of_alLookup_eq_some hl)
  have hne12 : pos.tick_bounds.1 ≠ pos.tick_bounds.2 := ne_of_lt hlt
  refine ⟨?_, ?_, ?_, ?_, ?_⟩
  · rw [hrp, alErase_map_fst]
    exact List.Nodup.filter _ hs.pos_nodup
  · intro lv
    rw [hrt]
    by_cases hlv : lv = pos.fee_level
    · subst hlv
      rw [Function.update_same]
      exact hnd2 (hnd1 (hs.tick_nodup pos.fee_level))
    · rw [Function.update_noteq hlv]
      exact hs.tick_nodup lv
  · intro lv t ts hts
    rw [hrt] at hts
    by_cases hlv : lv = pos.fee_level
    · subst hlv
      rw [Function.update_same] at hts
      by_cases ht2 : t = pos.tick_bounds.2
      · subst ht2
        have hcontr : Veax.alContains m2 pos.tick_bounds.2 = true := by
          unfold Veax.alContains
          rw [hts]
          rfl
        have hne1 : ts2.reference_counter ≠ 1 := hcnt2.mp hcontr
        have hval := hval2 ts hts
        omega
      · rw [hother2 t ht2] at hts
        by_cases ht1 : t = pos.tick_bounds.1
        · subst ht1
          have hcontr : Veax.alContains m1 pos.tick_bounds.1 = true := by
            unfold Veax.alContains
            rw [hts]
            rfl
          have hne1 : ts1.reference_counter ≠ 1 := hcnt1.mp hcontr
          have hval := hval1 ts hts
          omega
        · rw [hother1 t ht1] at hts
          exact hs.rc_pos pos.fee_level t ts hts
    · rw [Function.update_noteq hlv] at hts
      exact hs.rc_pos lv t ts hts
  · intro lv t
    rw [hrt, hrp, countP_alErase (Veax.posPred lv t) hs.pos_nodup hl]
    by_cases hlv : lv = pos.fee_level
    · subst hlv
      rw [Function.update_same]
      by_cases ht1 : pos.tick_bounds.1 = t
      · by_cases ht2 : pos.tick_bounds.2 = t
        · omega
        · have hc2 : Veax.refCountM m2 t = Veax.refCountM m1 t :=
            refCountM_congr (hother2 t (fun hx => ht2 hx.symm))
          subst ht1
          have hcond : Veax.posPred pos.fee_level pos.tick_bounds.1
              (pid, pos) = true := by
            unfold Veax.posPred
            simp
          rw [hcond]
          rw [hc2, hsub1, hs.rc_count pos.fee_level pos.tick_bounds.1]
          simp
      · by_cases ht2 : pos.tick_bounds.2 = t
        · have hc1 : Veax.refCountM m1 t
              = Veax.refCountM (s.tick_states pos.fee_level) t :=
            refCountM_congr (hother1 t (fun hx => ht1 hx.symm))
          subst ht2
          have hcond : Veax.posPred pos.fee_level pos.tick_bounds.2
              (pid, pos) = true := by
            unfold Veax.posPred
            simp
          rw [hcond]
          rw [hsub2, hc1, hs.rc_count pos.fee_level pos.tick_bounds.2]
          simp
        · have hc2 : Veax.refCountM m2 t = Veax.refCountM m1 t :=
            refCountM_congr (hother2 t (fun hx => ht2 hx.symm))
          have hc1 : Veax.refCountM m1 t
              = Veax.refCountM (s.tick_states pos.fee_level) t :=
            refCountM_congr (hother1 t (fun hx => ht1 hx.symm))
          have hcond : Veax.posPred pos.fee_level t (pid, pos) = false := by
            unfold Veax.posPred
            simp [ht1, ht2]
          rw [hcond]
          rw [hc2, hc1, hs.rc_count pos.fee_level t]
          simp
    · rw [Function.update_noteq hlv]
      have hcond : Veax.posPred lv t (pid, pos) = false := by
        unfold Veax.posPred
        simp
        intro hx
        exact absurd hx.symm hlv
      rw [hcond]
      rw [hs.rc_count lv t]
      simp
  · intro q hq
    rw [hrp] at hq
    exact hs.bounds_lt q (mem_of_mem_alErase hq)

theorem inv_pool_init : Veax.Inv Veax.pool_init := by
  refine ⟨List.nodup_nil, fun _ => List.nodup_nil, ?_, ?_, ?_⟩
  · intro l t ts hts
    exact Option.noConfusion hts
  · intro l t
    rfl
  · intro q hq
    exact absurd hq (List.not_mem_nil q)

theorem inv_of_reachable {s : Veax.PoolM} (h : Veax.Reachable s) : Veax.Inv s := by
  induction h with
  | init => exact inv_pool_init
  | open_step o pos l pid hr ih =>
    unfold Veax.open_commit
    cases hx : Veax.open_position o _ pos l pid with
    | ok r =>
      dsimp only
      exact open_preserves_inv hx ih
    | error e =>
      dsimp only
      exact ih
  | close_step o pid hr ih =>
    unfold Veax.close_commit
    cases hx : Veax.withdraw_fee_and_close_position o _ pid with
    | ok r =>
      dsimp only
      exact close_preserves_inv hx ih
    | error e =>
      dsimp only
      exact ih

theorem any_tick_states_false_of_no_positions {q : Veax.PoolM} (hq : Veax.Inv q)
    (hp : q.positions = []) : Veax.any_tick_states q.tick_states = false := by
  have hall : ∀ l, q.tick_states l = [] := by
    intro l
    by_contra hne
    obtain ⟨t, ht⟩ := exists_lookup_isSome_of_ne_nil hne
    obtain ⟨ts, hts⟩ := Option.isSome_iff_exists.mp ht
    have h1 := hq.rc_pos l t ts hts
    have h2 := hq.rc_count l t
    rw [refCountM_eq_of_lookup hts, hp] at h2
    rw [List.countP_nil] at h2
    omega
  unfold Veax.any_tick_states
  simp [hall]

theorem any_tick_states_true_of_position {q : Veax.PoolM} (hq : Veax.Inv q)
    (hp : q.positions ≠ []) : Veax.any_tick_states q.tick_states = true := by
  obtain ⟨x, hx⟩ := List.exists_mem_of_ne_nil q.positions hp
  have hpred : Veax.posPred x.2.fee_level x.2.tick_bounds.1 x = true := by
    unfold Veax.posPred
    simp
  have hcount : 0 < q.positions.countP
      (Veax.posPred x.2.fee_level x.2.tick_bounds.1) :=
    List.countP_pos.mpr ⟨x, hx, hpred⟩
  have hrc := hq.rc_count x.2.fee_level x.2.tick_bounds.1
  have hne0 : Veax.refCountM (q.tick_states x.2.fee_level)
      x.2.tick_bounds.1 ≠ 0 := by omega
  have hnonempty : q.tick_states x.2.fee_level ≠ [] := by
    intro hnil
    rw [refCountM_eq_zero (by rw [hnil]; rfl)] at hne0
    exact absurd rfl hne0
  unfold Veax.any_tick_states
  rw [List.any_eq_true]
  refine ⟨x.2.fee_level, List.mem_finRange _, ?_⟩
  simp [List.isEmpty_iff]
  exact hnonempty

/-- C2: in every pool state reachable by any sequence of `open_position`
and `withdraw_fee_and_close_position` operations (with arbitrary
parameters, including overlapping ranges sharing a boundary tick), a
tick entry exists in a level's tick-state map iff its reference counter
is nonzero; a successful `open_position` increments the counter of each
of the two boundary ticks of the new position (creating the entry on
first touch), and a successful `withdraw_fee_and_close_position`
decrements the counter of each boundary tick of the closed position,
the entry remaining in the map exactly when the decremented counter is
nonzero. -/
theorem C2_tick_exists_iff_refcount {s : Veax.PoolM} (h : Veax.Reachable s) :
    (∀ l t, Veax.alContains (s.tick_states l) t = true ↔
        Veax.refCountM (s.tick_states l) t ≠ 0) ∧
    (∀ o p l pid r, Veax.open_position o s p l pid = .ok r →
      ∃ rec, Veax.alLookup r.1.positions pid = some rec ∧ rec.fee_level = l ∧
        Veax.alContains (r.1.tick_states l) rec.tick_bounds.1 = true ∧
        Veax.alContains (r.1.tick_states l) rec.tick_bounds.2 = true ∧
        Veax.refCountM (r.1.tick_states l) rec.tick_bounds.1
          = Veax.refCountM (s.tick_states l) rec.tick_bounds.1 + 1 ∧
        Veax.refCountM (r.1.tick_states l) rec.tick_bounds.2
          = Veax.refCountM (s.tick_states l) rec.tick_bounds.2 + 1) ∧
    (∀ o pid r, Veax.withdraw_fee_and_close_position o s pid = .ok r →
      ∃ rec, Veax.alLookup s.positions pid = some rec ∧
        (∀ t, t = rec.tick_bounds.1 ∨ t = rec.tick_bounds.2 →
          1 ≤ Veax.refCountM (s.tick_states rec.fee_level) t ∧
          Veax.refCountM (r.1.tick_states rec.fee_level) t
            = Veax.refCountM (s.tick_states rec.fee_level) t - 1 ∧
          (Veax.alContains (r.1.tick_states rec.fee_level) t = true ↔
            Veax.refCountM (r.1.tick_states rec.fee_level) t ≠ 0))) := by
  refine ⟨?_, ?_, ?_⟩
  · intro l t
    have inv := inv_of_reachable h
    cases hx : Veax.alLookup (s.tick_states l) t with
    | none =>
      unfold Veax.alContains
      rw [hx, refCountM_eq_zero hx]
      simp
    | some ts =>
      unfold Veax.alContains
      rw [hx, refCountM_eq_of_lookup hx]
      have hpos := inv.rc_pos l t ts hx
      simp only [Option.isSome_some]
      exact ⟨fun _ => by omega, fun _ => trivial⟩
  · intro o p l pid r hr
    obtain ⟨tlh, liq, snap, m1, m2, hv, hlt, hcont, hu1, hu2, hrp, hrt⟩ :=
      open_ok_facts hr
    obtain ⟨hm1some, hm1rc, hm1other, hm1nd⟩ := tick_upsert_spec hu1
    obtain ⟨hm2some, hm2rc, hm2other, hm2nd⟩ := tick_upsert_spec hu2
    have hne : tlh.1 ≠ tlh.2 := ne_of_lt hlt
    refine ⟨{ fee_level := l, net_liquidity := liq,
              init_acc_lp_fees_per_fee_liquidity := snap,
              unwithdrawn_acc_lp_fees_per_fee_liquidity := snap,
              init_sqrtprice := o.init_sqrtprice,
              tick_bounds := tlh }, ?_, rfl, ?_, ?_, ?_, ?_⟩
    · rw [hrp, alLookup_cons]
      simp
    · dsimp only
      unfold Veax.alContains
      rw [hrt, Function.update_same]
      rw [hm2other tlh.1 hne]
      exact hm1some
    · dsimp only
      unfold Veax.alContains
      rw [hrt, Function.update_same]
      exact hm2some
    · dsimp only
      rw [hrt, Function.update_same, refCountM_congr (hm2other tlh.1 hne), hm1rc]
    · dsimp only
      rw [hrt, Function.update_same, hm2rc,
        refCountM_congr (hm1other tlh.2 hne.symm)]
  · intro o pid r hr
    obtain ⟨pos2, m1, deact1, m2, deact2, hl, htc1, htc2, hrp, hrt, _, _⟩ :=
      close_ok_facts hr
    obtain ⟨ts1, hts1, hge1, hdeq1, hsub1, hcnt1, hval1, hother1, hnd1⟩ :=
      tick_close_update_spec htc1
    obtain ⟨ts2, hts2, hge2, hdeq2, hsub2, hcnt2, hval2, hother2, hnd2⟩ :=
      tick_close_update_spec htc2
    have inv := inv_of_reachable h
    have hlt : pos2.tick_bounds.1 < pos2.tick_bounds.2 :=
      inv.bounds_lt (pid, pos2) (mem_of_alLookup_eq_some hl)
    have hne : pos2.tick_bounds.1 ≠ pos2.tick_bounds.2 := ne_of_lt hlt
    refine ⟨pos2, hl, ?_⟩
    intro t ht
    cases ht with
    | inl ht1 =>
      subst ht1
      have hb : Veax.refCountM (s.tick_states pos2.fee_level)
          pos2.tick_bounds.1 = ts1.reference_counter :=
        refCountM_eq_of_lookup hts1
      have hr1 : Veax.refCountM (r.1.tick_states pos2.fee_level)
          pos2.tick_bounds.1
          = Veax.refCountM (s.tick_states pos2.fee_level)
              pos2.tick_bounds.1 - 1 := by
        rw [hrt, Function.update_same, refCountM_congr (hother2 _ hne), hsub1]
      refine ⟨by omega, hr1, ?_⟩
      have hcc : Veax.alContains (r.1.tick_states pos2.fee_level)
          pos2.tick_bounds.1 = Veax.alContains m1 pos2.tick_bounds.1 := by
        unfold Veax.alContains
        rw [hrt, Function.update_same, hother2 _ hne]
      rw [hcc, hr1, hb, hcnt1]
      exact ⟨fun hx => by omega, fun hx => by omega⟩
    | inr ht2 =>
      subst ht2
      have hb1 : Veax.refCountM m1 pos2.tick_bounds.2
          = Veax.refCountM (s.tick_states pos2.fee_level)
              pos2.tick_bounds.2 :=
        refCountM_congr (hother1 _ hne.symm)
      have hb : Veax.refCountM m1 pos2.tick_bounds.2 = ts2.reference_counter :=
        refCountM_eq_of_lookup hts2
      have hr2 : Veax.refCountM (r.1.tick_states pos2.fee_level)
          pos2.tick_bounds.2
          = Veax.refCountM (s.tick_states pos2.fee_level)
              pos2.tick_bounds.2 - 1 := by
        rw [hrt, Function.update_same, hsub2, hb1]
      refine ⟨by omega, hr2, ?_⟩
      have hcc : Veax.alContains (r.1.tick_states pos2.fee_level)
          pos2.tick_bounds.2 = Veax.alContains m2 pos2.tick_bounds.2 := by
        unfold Veax.alContains
        rw [hrt, Function.update_same]
      rw [hcc, hr2, ← hb1, hb, hcnt2]
      exact ⟨fun hx => by omega, fun hx => by omega⟩

theorem C2_tick_exists_iff_refcount_witness :
    (∀ l t, Veax.alContains (Veax.st1.tick_states l) t = true ↔
        Veax.refCountM (Veax.st1.tick_states l) t ≠ 0) ∧
    (∀ o p l pid r, Veax.open_position o Veax.st1 p l pid = .ok r →
      ∃ rec, Veax.alLookup r.1.positions pid = some rec ∧ rec.fee_level = l ∧
        Veax.alContains (r.1.tick_states l) rec.tick_bounds.1 = true ∧
        Veax.alContains (r.1.tick_states l) rec.tick_bounds.2 = true ∧
        Veax.refCountM (r.1.tick_states l) rec.tick_bounds.1
          = Veax.refCountM (Veax.st1.tick_states l) rec.tick_bounds.1 + 1 ∧
        Veax.refCountM (r.1.tick_states l) rec.tick_bounds.2
          = Veax.refCountM (Veax.st1.tick_states l) rec.tick_bounds.2 + 1) ∧
    (∀ o pid r, Veax.withdraw_fee_and_close_position o Veax.st1 pid = .ok r →
      ∃ rec, Veax.alLookup Veax.st1.positions pid = some rec ∧
        (∀ t, t = rec.tick_bounds.1 ∨ t = rec.tick_bounds.2 →
          1 ≤ Veax.refCountM (Veax.st1.tick_states rec.fee_level) t ∧
          Veax.refCountM (r.1.tick_states rec.fee_level) t
            = Veax.refCountM (Veax.st1.tick_states rec.fee_level) t - 1 ∧
          (Veax.alContains (r.1.tick_states rec.fee_level) t = true ↔
            Veax.refCountM (r.1.tick_states rec.fee_level) t ≠ 0))) :=
  C2_tick_exists_iff_refcount
    (Veax.Reachable.open_step Veax.o_open1 Veax.pos1 0 7 Veax.Reachable.init)

/-- C4: from any reachable pool state, a successful
`withdraw_fee_and_close_position` that leaves no position resets every
effective sqrt-price to zero and the top active level to 0 (the pool
returns to the uninitialized state); when positions remain, the
effective sqrt-prices and the top active level are unchanged. -/
theorem C4_close_last_position_resets {o : Veax.CloseOracle} {s : Veax.PoolM}
    {pid : Nat} (h : Veax.Reachable s)
    (hc : (Veax.withdraw_fee_and_close_position o s pid).isOk = true) :
    ((Veax.close_commit o s pid).positions = [] →
      (Veax.close_commit o s pid).eff_sqrtprices
        = (fun _ => ((0 : ℚ), (0 : ℚ))) ∧
      (Veax.close_commit o s pid).top_active_level = 0) ∧
    ((Veax.close_commit o s pid).positions ≠ [] →
      (Veax.close_commit o s pid).eff_sqrtprices = s.eff_sqrtprices ∧
      (Veax.close_commit o s pid).top_active_level = s.top_active_level) := by
  cases hx : Veax.withdraw_fee_and_close_position o s pid with
  | error e =>
    rw [hx] at hc
    exact Bool.noConfusion hc
  | ok r =>
    have hcc : Veax.close_commit o s pid = r.1 := by
      unfold Veax.close_commit
      rw [hx]
    rw [hcc]
    obtain ⟨pos2, m1, deact1, m2, deact2, hl, htc1, htc2, hrp, hrt, hkeep,
      hreset⟩ := close_ok_facts hx
    have hinvr : Veax.Inv r.1 := close_preserves_inv hx (inv_of_reachable h)
    have hcond : Veax.any_tick_states
        (Function.update s.tick_states pos2.fee_level m2)
        = Veax.any_tick_states r.1.tick_states := by
      rw [hrt]
    constructor
    · intro hp
      exact hreset (by
        rw [hcond]
        exact any_tick_states_false_of_no_positions hinvr hp)
    · intro hp
      exact hkeep (by
        rw [hcond]
        exact any_tick_states_true_of_position hinvr hp)

set_option maxRecDepth 100000 in
theorem C4_close_last_position_resets_witness :
    ((Veax.close_commit Veax.o_close1 Veax.st1 7).positions = [] →
      (Veax.close_commit Veax.o_close1 Veax.st1 7).eff_sqrtprices
        = (fun _ => ((0 : ℚ), (0 : ℚ))) ∧
      (Veax.close_commit Veax.o_close1 Veax.st1 7).top_active_level = 0) ∧
    ((Veax.close_commit Veax.o_close1 Veax.st1 7).positions ≠ [] →
      (Veax.close_commit Veax.o_close1 Veax.st1 7).eff_sqrtprices
        = Veax.st1.eff_sqrtprices ∧
      (Veax.close_commit Veax.o_close1 Veax.st1 7).top_active_level
        = Veax.st1.top_active_level) :=
  C4_close_last_position_resets
    (Veax.Reachable.open_step Veax.o_open1 Veax.pos1 0 7 Veax.Reachable.init)
    (by rfl)

theorem C8_tick_new_bounds_witness :
    Veax.Tick.new 1000000 = .error .PriceTickOutOfBounds :=
  (C8_tick_new_bounds 1000000).2 (by decide)
